import Mathlib

/-!
# Thumbnail proxy: cache-aside resolver and batch coordinator

A shallow embedding of `service/usecase/usecases.go` (the resolver
`getPhotoOrFetch`, the sequential coordinator `process`, the concurrent
coordinator `processAsync`, and `ProcessData`) together with the SQLite store of
`service/integrations/SQLLite/initSQL.go`.

Conventions of the embedding:

* a Go `[]byte` is a `Bytes`: `none` is the nil slice, `some bs` a non-nil slice
  (possibly of length zero). The source tests `photo != nil`, so the two are kept
  apart;
* a Go `error` is an `Option Error`: `none` is the nil error;
* a result of type `[][]byte` is a `List Bytes`; the source only ever builds it by
  `append` on a nil slice, so `[]` stands for the nil slice;
* the collaborators `bl.Sqlite` and `bl.YouTubeService` are interface values; they
  are embedded as arbitrary state transformers on a world `σ`;
* every call of a collaborator, and every entry into `getPhotoOrFetch`, is
  recorded in a list of `Call`s so that invocations can be counted;
* logger calls return nothing and never influence control flow; they are left out.
-/

namespace Thumbnail

/-! ## Data model -/

/-- One byte of a blob. -/
abbrev Byte := Fin 256

/-- A Go byte slice: `none` is the nil slice, `some bs` is a non-nil slice. -/
abbrev Bytes := Option (List Byte)

/-- A non-nil Go error value, identified by its message. -/
abbrev Error := String

/-- The methods of `database.Database` that the use case calls, as state
transformers on the world. -/
structure Database (σ : Type) where
  InsertResource : String → Bytes → σ → Option Error × σ
  GetPhotoByUrl : String → σ → (Bytes × Option Error) × σ

/-- The method of `youtubeclient.YouTubeClient` that the use case calls. -/
structure YouTubeClient (σ : Type) where
  FetchThumbnail : String → σ → (Bytes × Option Error) × σ

/-- The struct `BusinessLogic` (the logger field is left out). -/
structure BusinessLogic (σ : Type) where
  YouTubeService : YouTubeClient σ
  Sqlite : Database σ

/-- An observable event: entry into the resolver or a call of a collaborator. -/
inductive Call where
  | getPhotoOrFetch (link : String)
  | GetPhotoByUrl (link : String)
  | FetchThumbnail (link : String)
  | InsertResource (link : String) (photo : Bytes)
  deriving DecidableEq, Repr

/-- Recognises a call of `FetchThumbnail`. -/
def Call.isFetch : Call → Bool
  | Call.FetchThumbnail _ => true
  | _ => false

/-- Recognises an entry into `getPhotoOrFetch`. -/
def Call.isResolve : Call → Bool
  | Call.getPhotoOrFetch _ => true
  | _ => false

/-- Recognises a call of `InsertResource`. -/
def Call.isInsert : Call → Bool
  | Call.InsertResource _ _ => true
  | _ => false

/-- Number of `FetchThumbnail` invocations in a list of calls. -/
def fetchCount (calls : List Call) : Nat := calls.countP Call.isFetch

/-- What one call of `getPhotoOrFetch` returns (`photo`, `err`), the world it
leaves behind and the calls it made, in order. -/
structure Resolved (σ : Type) where
  photo : Bytes
  err : Option Error
  world : σ
  calls : List Call

/-! ## The resolver -/

/-- The method `BusinessLogic.getPhotoOrFetch` (usecases.go, lines 122-152). -/
def getPhotoOrFetch {σ : Type} (bl : BusinessLogic σ) (link : String) (w : σ) : Resolved σ :=
  let found := bl.Sqlite.GetPhotoByUrl link w
  let t1 := [Call.getPhotoOrFetch link, Call.GetPhotoByUrl link]
  match found.1.2 with
  | some err => ⟨none, some err, found.2, t1⟩
  | none =>
    match found.1.1 with
    | some photo => ⟨some photo, none, found.2, t1⟩
    | none =>
      let fetched := bl.YouTubeService.FetchThumbnail link found.2
      let t2 := t1 ++ [Call.FetchThumbnail link]
      match fetched.1.2 with
      | some err => ⟨none, some err, fetched.2, t2⟩
      | none =>
        let saved := bl.Sqlite.InsertResource link fetched.1.1 fetched.2
        ⟨fetched.1.1, none, saved.2, t2 ++ [Call.InsertResource link fetched.1.1]⟩

/-! ## Sequential mode -/

/-- What a batch call returns (`photos`, `err`), the world it leaves behind and the
calls it made. -/
structure Batch (σ : Type) where
  photos : List Bytes
  err : Option Error
  world : σ
  calls : List Call

/-- The `for _, link := range links` loop of `process`, with the loop variables
`photos`, the world and the calls made so far as accumulators. An error skips the
link (`continue`); a nil photo without error is not appended. -/
def processLoop {σ : Type} (bl : BusinessLogic σ) :
    List String → List Bytes → σ → List Call → Batch σ
  | [], photos, w, cs => ⟨photos, none, w, cs⟩
  | link :: rest, photos, w, cs =>
    let r := getPhotoOrFetch bl link w
    match r.err with
    | some _ => processLoop bl rest photos r.world (cs ++ r.calls)
    | none =>
      match r.photo with
      | some p => processLoop bl rest (photos ++ [some p]) r.world (cs ++ r.calls)
      | none => processLoop bl rest photos r.world (cs ++ r.calls)

/-- The method `BusinessLogic.process` (usecases.go, lines 101-118). -/
def process {σ : Type} (bl : BusinessLogic σ) (links : List String) (w : σ) : Batch σ :=
  processLoop bl links [] w []

/-- The per-key resolutions of a batch: the results of calling `getPhotoOrFetch`
once per link, in input order, each call starting in the world left by the one
before. -/
def resolutions {σ : Type} (bl : BusinessLogic σ) : List String → σ → List (Resolved σ)
  | [], _ => []
  | link :: rest, w =>
    let r := getPhotoOrFetch bl link w
    r :: resolutions bl rest r.world

/-! ## Concurrent mode

`processAsync` starts one goroutine per link, a closer goroutine, and then loops
on a `select`. It is embedded as a transition system: a state holds the shared
world, the goroutines, the two buffered channels and the local variables of the
coordinator; an `Action` names which thread performs its next operation; `step`
performs it, or answers `none` when that thread cannot move (it is blocked, or it
has ended). A schedule is a list of actions; every interleaving of the program is
the run of some schedule. Each call of a collaborator is one atomic step.
-/

/-- Where a spawned goroutine stands inside
`go func(link string) { ... getPhotoOrFetch(link) ... }`. -/
inductive UnitPc where
  | lookup
  | fetch
  | insert (photo : Bytes)
  | send (photo : Bytes) (err : Option Error)
  | done (photo : Bytes) (err : Option Error)
  deriving DecidableEq, Repr

/-- A spawned goroutine: its argument `link` and where it stands. -/
structure GoUnit where
  link : String
  pc : UnitPc
  deriving DecidableEq, Repr

/-- The goroutine has sent its result and called `wg.Done()`. -/
def GoUnit.isDone (u : GoUnit) : Bool :=
  match u.pc with
  | UnitPc.done _ _ => true
  | _ => false

/-- The goroutine's call of `getPhotoOrFetch` has returned a non-nil error. -/
def GoUnit.failed (u : GoUnit) : Bool :=
  match u.pc with
  | UnitPc.send _ (some _) => true
  | UnitPc.done _ (some _) => true
  | _ => false

/-- The blob that the goroutine's call of `getPhotoOrFetch` returned (nil while the
call is still running). -/
def GoUnit.photo (u : GoUnit) : Bytes :=
  match u.pc with
  | UnitPc.send photo _ => photo
  | UnitPc.done photo _ => photo
  | _ => none

/-- One collaborator call of `getPhotoOrFetch`, as executed by a goroutine standing
at `lookup`, `fetch` or `insert`: the next standing point, the new world and the
calls made. At `send` and `done` the resolver has returned and nothing happens. -/
def resolveStep {σ : Type} (bl : BusinessLogic σ) (link : String) :
    UnitPc → σ → UnitPc × σ × List Call
  | UnitPc.lookup, w =>
    let found := bl.Sqlite.GetPhotoByUrl link w
    let t := [Call.getPhotoOrFetch link, Call.GetPhotoByUrl link]
    match found.1.2 with
    | some err => (UnitPc.send none (some err), found.2, t)
    | none =>
      match found.1.1 with
      | some photo => (UnitPc.send (some photo) none, found.2, t)
      | none => (UnitPc.fetch, found.2, t)
  | UnitPc.fetch, w =>
    let fetched := bl.YouTubeService.FetchThumbnail link w
    match fetched.1.2 with
    | some err => (UnitPc.send none (some err), fetched.2, [Call.FetchThumbnail link])
    | none => (UnitPc.insert fetched.1.1, fetched.2, [Call.FetchThumbnail link])
  | UnitPc.insert photo, w =>
    let saved := bl.Sqlite.InsertResource link photo w
    (UnitPc.send photo none, saved.2, [Call.InsertResource link photo])
  | UnitPc.send photo err, w => (UnitPc.send photo err, w, [])
  | UnitPc.done photo err, w => (UnitPc.done photo err, w, [])

/-- A completed channel send, kept as history: which goroutine (its position in
spawn order) reported which result. -/
structure Report where
  index : Nat
  photo : Bytes
  err : Option Error
  deriving DecidableEq, Repr

/-- The blob of a report made on `ch`. -/
def Report.onCh (r : Report) : Option Bytes :=
  match r.err with
  | none => some r.photo
  | some _ => none

/-- The state of one call of `processAsync`. `pending` are the links for which the
spawning loop has not yet run; `units` the spawned goroutines in spawn order;
`cap` the capacity `len(links)` of both channels; `ch`, `errCh` the buffered
values, oldest first; `chNil`, `errChNil` say that the coordinator has set its
variable `ch`, `errCh` to nil; `photos` is its local slice; `returned` is what
`processAsync` has returned, once it has; `reports` is the history of all sends in
the order they happened. -/
structure AsyncState (σ : Type) where
  world : σ
  calls : List Call
  cap : Nat
  pending : List String
  units : List GoUnit
  ch : List Bytes
  errCh : List Error
  chClosed : Bool
  errChClosed : Bool
  chNil : Bool
  errChNil : Bool
  photos : List Bytes
  returned : Option (List Bytes × Option Error)
  reports : List Report

/-- The state on entry to `processAsync`: both channels made with capacity
`len(links)`, nothing spawned yet. -/
def AsyncState.init {σ : Type} (links : List String) (w : σ) : AsyncState σ where
  world := w
  calls := []
  cap := links.length
  pending := links
  units := []
  ch := []
  errCh := []
  chClosed := false
  errChClosed := false
  chNil := false
  errChNil := false
  photos := []
  returned := none
  reports := []

/-- Which thread moves next. `spawn`: one iteration of the spawning loop.
`unit i`: goroutine `i` performs its next operation (a collaborator call, or its
channel send followed by `wg.Done()`). `closeCh`: in the closer goroutine
`wg.Wait()` returns and `close(ch)` runs. `closeErrCh`: the closer runs
`close(errCh)`. `recvCh`, `recvErrCh`: the coordinator's `select` takes the case
`<-ch`, `<-errCh`, and runs its body and the `break` test. -/
inductive Action where
  | spawn
  | unit (i : Nat)
  | closeCh
  | closeErrCh
  | recvCh
  | recvErrCh
  deriving DecidableEq, Repr

/-- One operation of goroutine `i`, whose current record is `u`. A send needs room
in the buffer of an open channel. -/
def stepUnit {σ : Type} (bl : BusinessLogic σ) (i : Nat) (u : GoUnit) (s : AsyncState σ) :
    Option (AsyncState σ) :=
  match u.pc with
  | UnitPc.done _ _ => none
  | UnitPc.send photo (some err) =>
    if s.errCh.length < s.cap ∧ s.errChClosed = false then
      some { s with
        errCh := s.errCh ++ [err]
        units := s.units.set i ⟨u.link, UnitPc.done photo (some err)⟩
        reports := s.reports ++ [⟨i, photo, some err⟩] }
    else none
  | UnitPc.send photo none =>
    if s.ch.length < s.cap ∧ s.chClosed = false then
      some { s with
        ch := s.ch ++ [photo]
        units := s.units.set i ⟨u.link, UnitPc.done photo none⟩
        reports := s.reports ++ [⟨i, photo, none⟩] }
    else none
  | pc =>
    let r := resolveStep bl u.link pc s.world
    some { s with
      world := r.2.1
      calls := s.calls ++ r.2.2
      units := s.units.set i ⟨u.link, r.1⟩ }

/-- One step of the transition system of `processAsync` (usecases.go, lines 46-98). -/
def step {σ : Type} (bl : BusinessLogic σ) : Action → AsyncState σ → Option (AsyncState σ)
  | Action.spawn, s =>
    match s.pending with
    | [] => none
    | link :: rest =>
      some { s with pending := rest, units := s.units ++ [⟨link, UnitPc.lookup⟩] }
  | Action.unit i, s =>
    match s.units[i]? with
    | none => none
    | some u => stepUnit bl i u s
  | Action.closeCh, s =>
    if s.pending = [] ∧ s.units.all GoUnit.isDone = true ∧ s.chClosed = false then
      some { s with chClosed := true }
    else none
  | Action.closeErrCh, s =>
    if s.chClosed = true ∧ s.errChClosed = false then
      some { s with errChClosed := true }
    else none
  | Action.recvCh, s =>
    if s.pending = [] ∧ s.returned = none ∧ s.chNil = false then
      match s.ch with
      | photo :: rest => some { s with ch := rest, photos := s.photos ++ [photo] }
      | [] =>
        if s.chClosed = true then
          some { s with
            chNil := true
            returned := if s.errChNil = true then some (s.photos, none) else none }
        else none
    else none
  | Action.recvErrCh, s =>
    if s.pending = [] ∧ s.returned = none ∧ s.errChNil = false then
      match s.errCh with
      | err :: rest => some { s with errCh := rest, returned := some ([], some err) }
      | [] =>
        if s.errChClosed = true then
          some { s with
            errChNil := true
            returned := if s.chNil = true then some (s.photos, none) else none }
        else none
    else none

/-- Runs a schedule from a state; `none` when some action of the schedule cannot
be taken. -/
def run {σ : Type} (bl : BusinessLogic σ) : List Action → AsyncState σ → Option (AsyncState σ)
  | [], s => some s
  | a :: rest, s => (step bl a s).bind (run bl rest)

/-- The method `BusinessLogic.processAsync` under a schedule: what the call has
returned after the schedule has run, if it has returned by then. -/
def processAsync {σ : Type} (bl : BusinessLogic σ) (links : List String)
    (sched : List Action) (w : σ) : Option (List Bytes × Option Error) :=
  (run bl sched (AsyncState.init links w)).bind AsyncState.returned

/-- The method `BusinessLogic.ProcessData` (usecases.go, lines 36-43); the
schedule only matters when `flag` is set. -/
def ProcessData {σ : Type} (bl : BusinessLogic σ) (flag : Bool) (links : List String)
    (sched : List Action) (w : σ) : Option (List Bytes × Option Error) :=
  if flag then processAsync bl links sched w
  else some ((process bl links w).photos, (process bl links w).err)

/-- Steps that a goroutine still contributes to a run: its remaining operations,
plus the later receive of what it sends. -/
def UnitPc.weight : UnitPc → Nat
  | UnitPc.lookup => 5
  | UnitPc.fetch => 4
  | UnitPc.insert _ => 3
  | UnitPc.send _ _ => 2
  | UnitPc.done _ _ => 0

/-- An upper bound on the number of steps that can still be taken from a state. -/
def AsyncState.measure {σ : Type} (s : AsyncState σ) : Nat :=
  6 * s.pending.length + (s.units.map (fun u => u.pc.weight)).sum
    + s.ch.length + s.errCh.length
    + (if s.chClosed then 0 else 1) + (if s.errChClosed then 0 else 1)
    + (if s.chNil then 0 else 1) + (if s.errChNil then 0 else 1)

/-! ## The SQLite store -/

/-- A row of the table `resources`: `id INTEGER PRIMARY KEY AUTOINCREMENT`,
`url TEXT NOT NULL`, `photo BLOB` (nullable: `none` is SQL NULL). -/
structure Row where
  id : Nat
  url : String
  photo : Bytes
  deriving DecidableEq, Repr

/-- The state behind a `SQLiteDatabase`: the rows of `resources` in rowid order,
and what the driver answers: `execErr` is the error `DB.Exec` reports (`none`: the
statement runs), `getErr` the error, other than `sql.ErrNoRows`, that `DB.Get`
reports (`none`: the query runs). -/
structure SQLiteDatabase where
  rows : List Row
  execErr : Option Error
  getErr : Option Error
  deriving DecidableEq, Repr

/-- The method `SQLiteDatabase.InsertResource` (initSQL.go, lines 53-70): one
`INSERT INTO resources (url, photo)`; a nil photo is bound as NULL. The statement
builder cannot fail on this fixed statement. -/
def SQLiteDatabase.InsertResource (url : String) (photo : Bytes) (db : SQLiteDatabase) :
    Option Error × SQLiteDatabase :=
  match db.execErr with
  | some execErr => (some execErr, db)
  | none => (none, { db with rows := db.rows ++ [⟨db.rows.length + 1, url, photo⟩] })

/-- The method `SQLiteDatabase.GetPhotoByUrl` (initSQL.go, lines 104-125):
`SELECT photo FROM resources WHERE url = ?` scanned by `DB.Get`, which takes the
first row of the answer; no row is `sql.ErrNoRows` and gives `(nil, nil)`; a NULL
photo scans to the nil slice. -/
def SQLiteDatabase.GetPhotoByUrl (url : String) (db : SQLiteDatabase) :
    (Bytes × Option Error) × SQLiteDatabase :=
  match db.getErr with
  | some err => ((none, some err), db)
  | none =>
    match db.rows.find? (fun row => row.url == url) with
    | none => ((none, none), db)
    | some row => ((row.photo, none), db)

/-- The wiring of `main.go`: a `BusinessLogic` whose store is the SQLite database
and whose fetcher is any function `fetch` on its own state `ν`. -/
def sqliteLogic {ν : Type} (fetch : String → ν → (Bytes × Option Error) × ν) :
    BusinessLogic (SQLiteDatabase × ν) where
  YouTubeService :=
    { FetchThumbnail := fun link w => ((fetch link w.2).1, (w.1, (fetch link w.2).2)) }
  Sqlite :=
    { InsertResource := fun url photo w =>
        ((SQLiteDatabase.InsertResource url photo w.1).1,
          ((SQLiteDatabase.InsertResource url photo w.1).2, w.2))
      GetPhotoByUrl := fun url w =>
        ((SQLiteDatabase.GetPhotoByUrl url w.1).1,
          ((SQLiteDatabase.GetPhotoByUrl url w.1).2, w.2)) }

/-! ## Concrete collaborators used to evaluate the definitions -/

/-- A fetcher that answers the blob `[7, 8]` for every link and counts its calls. -/
def okFetch (_link : String) (n : Nat) : (Bytes × Option Error) × Nat :=
  ((some [7, 8], none), n + 1)

/-- A fetcher that fails for every link and counts its calls. -/
def failFetch (_link : String) (n : Nat) : (Bytes × Option Error) × Nat :=
  ((none, some "unsupported URL format"), n + 1)

/-- A fetcher that answers a nil blob and a nil error for every link. -/
def nilFetch (_link : String) (n : Nat) : (Bytes × Option Error) × Nat :=
  ((none, none), n + 1)

/-- A fetcher that succeeds on the link `k2` and fails on every other link. -/
def mixedFetch (link : String) (n : Nat) : (Bytes × Option Error) × Nat :=
  if link = "k2" then ((some [7, 8], none), n + 1)
  else ((none, some "unsupported URL format"), n + 1)

/-- A healthy store holding one row, for the key `k1`. -/
def oneRowDb : SQLiteDatabase :=
  ⟨[⟨1, "k1", some [1, 2, 3]⟩], none, none⟩

/-- An empty store whose queries fail. -/
def brokenDb : SQLiteDatabase :=
  ⟨[], none, some "database is locked"⟩

/-- An empty store that can be read but refuses every write. -/
def readOnlyDb : SQLiteDatabase :=
  ⟨[], some "attempt to write a readonly database", none⟩

/-- An empty healthy store. -/
def emptyDb : SQLiteDatabase :=
  ⟨[], none, none⟩

/-! ## What the claims speak of -/

/-- The blobs of the resolutions that returned no error, in order: the output of
sequential mode as the specification words it. -/
def successBlobs {σ : Type} (rs : List (Resolved σ)) : List Bytes :=
  (rs.filter (fun r => r.err.isNone)).map (fun r => r.photo)

/-- The blobs of the resolutions that returned no error and a non-nil blob, in
order. -/
def nonNilSuccessBlobs {σ : Type} (rs : List (Resolved σ)) : List Bytes :=
  (rs.filter (fun r => r.err.isNone && r.photo.isSome)).map (fun r => r.photo)

/-! ## The invariant of the concurrent model -/

/-- Counts a goroutine that is done. -/
def doneBit (u : GoUnit) : Nat := if u.isDone = true then 1 else 0

/-- The errors that the coordinator has taken from `errCh`: the one it returned,
if it returned an error. -/
def receivedErrs : Option (List Bytes × Option Error) → List Error
  | some (_, some e) => [e]
  | _ => []

/-- The invariant of the transition system of `processAsync` on `links`. -/
structure Inv {σ : Type} (links : List String) (s : AsyncState σ) : Prop where
  cap_eq : s.cap = links.length
  links_eq : s.units.map GoUnit.link ++ s.pending = links
  closed_done : s.chClosed = true → s.pending = [] ∧ ∀ u ∈ s.units, u.isDone = true
  errClosed_closed : s.errChClosed = true → s.chClosed = true
  chNil_drained : s.chNil = true → s.chClosed = true ∧ s.ch = []
  errChNil_drained : s.errChNil = true → s.errChClosed = true ∧ s.errCh = []
  both_nil : s.chNil = true → s.errChNil = true → s.returned ≠ none
  ret_ok : ∀ out, s.returned = some (out, none) →
    s.chNil = true ∧ s.errChNil = true ∧ out = s.photos
  ret_err : ∀ out e, s.returned = some (out, some e) → out = []
  err_hist : s.reports.filterMap (fun r => r.err) = receivedErrs s.returned ++ s.errCh
  ch_hist : s.reports.filterMap Report.onCh = s.photos ++ s.ch
  rep_unit : ∀ r ∈ s.reports, ∃ u, s.units[r.index]? = some u ∧ u.pc = UnitPc.done r.photo r.err
  done_rep : ∀ i u, s.units[i]? = some u → u.isDone = true →
    i ∈ s.reports.map (fun r => r.index)
  rep_nodup : (s.reports.map (fun r => r.index)).Nodup
  rep_count : s.reports.length = (s.units.map doneBit).sum

/-! ## Concrete schedules used to evaluate the concurrent model -/

/-- A schedule for the batch `[k1, k2, k3]`: all three goroutines are spawned,
goroutine 0 resolves `k1` and sends, the coordinator receives that blob, goroutine
2 resolves `k3`, fails and sends its error, the coordinator receives the error.
Goroutine 1 has not started its lookup. -/
def errSchedule : List Action :=
  [Action.spawn, Action.spawn, Action.spawn, Action.unit 0, Action.unit 0, Action.recvCh,
    Action.unit 2, Action.unit 2, Action.unit 2, Action.recvErrCh]

/-- The state that `errSchedule` reaches from the one-row store with the fetcher
`mixedFetch`. -/
def errFinal : AsyncState (SQLiteDatabase × Nat) where
  world := (oneRowDb, 1)
  calls := [Call.getPhotoOrFetch "k1", Call.GetPhotoByUrl "k1", Call.getPhotoOrFetch "k3",
    Call.GetPhotoByUrl "k3", Call.FetchThumbnail "k3"]
  cap := 3
  pending := []
  units := [⟨"k1", UnitPc.done (some [1, 2, 3]) none⟩, ⟨"k2", UnitPc.lookup⟩,
    ⟨"k3", UnitPc.done none (some "unsupported URL format")⟩]
  ch := []
  errCh := []
  chClosed := false
  errChClosed := false
  chNil := false
  errChNil := false
  photos := [some [1, 2, 3]]
  returned := some ([], some "unsupported URL format")
  reports := [⟨0, some [1, 2, 3], none⟩, ⟨2, none, some "unsupported URL format"⟩]

/-- A schedule for the batch `[k1, k2]`: both goroutines are spawned, goroutine 1
resolves `k2` (miss, fetch, insert) and sends, then goroutine 0 resolves `k1` and
sends, the closer closes both channels, the coordinator drains them. -/
def okSchedule : List Action :=
  [Action.spawn, Action.spawn, Action.unit 1, Action.unit 1, Action.unit 1, Action.unit 1,
    Action.unit 0, Action.unit 0, Action.closeCh, Action.closeErrCh, Action.recvCh,
    Action.recvCh, Action.recvCh, Action.recvErrCh]

/-- The state that `okSchedule` reaches from the one-row store with the fetcher
`mixedFetch`. -/
def okFinal : AsyncState (SQLiteDatabase × Nat) where
  world := (⟨[⟨1, "k1", some [1, 2, 3]⟩, ⟨2, "k2", some [7, 8]⟩], none, none⟩, 1)
  calls := [Call.getPhotoOrFetch "k2", Call.GetPhotoByUrl "k2", Call.FetchThumbnail "k2",
    Call.InsertResource "k2" (some [7, 8]), Call.getPhotoOrFetch "k1",
    Call.GetPhotoByUrl "k1"]
  cap := 2
  pending := []
  units := [⟨"k1", UnitPc.done (some [1, 2, 3]) none⟩, ⟨"k2", UnitPc.done (some [7, 8]) none⟩]
  ch := []
  errCh := []
  chClosed := true
  errChClosed := true
  chNil := true
  errChNil := true
  photos := [some [7, 8], some [1, 2, 3]]
  returned := some ([some [7, 8], some [1, 2, 3]], none)
  reports := [⟨1, some [7, 8], none⟩, ⟨0, some [1, 2, 3], none⟩]

/-- The method `SQLiteDatabase.ResourceExists` (initSQL.go, lines 73-90):
`SELECT COUNT(*) FROM resources WHERE url = ?` scanned by `DB.Get` into `count`,
answered as `count > 0`. -/
def SQLiteDatabase.ResourceExists (url : String) (db : SQLiteDatabase) :
    (Bool × Option Error) × SQLiteDatabase :=
  match db.getErr with
  | some err => ((false, some err), db)
  | none => ((decide ((db.rows.filter (fun row => row.url == url)).length > 0), none), db)

/-- A healthy store whose only row, for the key `k`, holds a NULL photo. -/
def nullRowDb : SQLiteDatabase :=
  ⟨[⟨1, "k", none⟩], none, none⟩

/-- A healthy store whose only row, for the key `k`, holds a blob of zero bytes. -/
def zeroBlobDb : SQLiteDatabase :=
  ⟨[⟨1, "k", some []⟩], none, none⟩

/-! ## The request handler -/

/-- The message `pb.SendDataRequest`. -/
structure SendDataRequest where
  Flag : Bool
  Links : List String
  deriving DecidableEq, Repr

/-- The message `pb.SendDataResponse`. -/
structure SendDataResponse where
  Status : String
  Images : List Bytes
  deriving DecidableEq, Repr

/-- An error made by `fmt.Errorf` with the verb `%w`: its message, and the
error that it wraps. -/
structure WrappedError where
  message : String
  wrapped : Error
  deriving DecidableEq, Repr

/-- The interface `usecase.DataProcessorUsecase`: what `ProcessData` returns for a
flag and a list of links. -/
structure DataProcessorUsecase where
  ProcessData : Bool → List String → List Bytes × Option Error

/-- The struct `DataHandler` (the logger field is left out). -/
structure DataHandler where
  BusinessLogic : DataProcessorUsecase

/-- The method `DataHandler.HandleSendData` (handlers.go, lines 34-57): the
response, nil on failure, and the error. -/
def DataHandler.HandleSendData (dh : DataHandler) (req : SendDataRequest) :
    Option SendDataResponse × Option WrappedError :=
  let answer := dh.BusinessLogic.ProcessData req.Flag req.Links
  match answer.2 with
  | some err => (none, some ⟨"failed to process data: " ++ err, err⟩)
  | none =>
    let images := ([] : List Bytes) ++ answer.1
    (some ⟨"success", images⟩, none)

/-! ## URLs and the video id -/

/-- What the use sites read from a `*url.URL`: `Scheme`, `Host`, `Path`, and
`Query`, the key and value pairs that `Query()` yields, in the order of the query
string. -/
structure URL where
  Scheme : String
  Host : String
  Path : String
  Query : List (String × String)
  deriving DecidableEq, Repr

/-- The method `url.Values.Get`: the first value of the key, or the empty string. -/
def Values.Get (values : List (String × String)) (key : String) : String :=
  match values.find? (fun kv => kv.1 == key) with
  | some kv => kv.2
  | none => ""

/-- Splits a list of characters at every occurrence of `sep`; the answer always
has one more piece than there are separators. -/
def splitChars (sep : Char) : List Char → List (List Char)
  | [] => [[]]
  | c :: cs =>
    if c = sep then [] :: splitChars sep cs
    else
      match splitChars sep cs with
      | [] => [[c]]
      | seg :: rest => (c :: seg) :: rest

/-- The function `strings.Split` for a separator of one character, the only use in
the sources (a slash and a comma). -/
def strings.Split (s : String) (sep : Char) : List String :=
  (splitChars sep s.data).map String.mk

/-- The function `extractVideoID` of package `youtubeclient` (YouTubeClient.go,
lines 111-145). The library function `url.Parse` is the argument `parse`. The
branches first settle `videoID` or return early; the last test rejects an empty
`videoID`. -/
def youtubeclient.extractVideoID (parse : String → Except Error URL) (videoURL : String) :
    String × Option Error :=
  match parse videoURL with
  | Except.error err => ("", some ("failed to parse URL: " ++ err))
  | Except.ok parsedURL =>
    let settled : String × Option Error :=
      if parsedURL.Host = "www.youtube.com" ∨ parsedURL.Host = "youtube.com" then
        let id := Values.Get parsedURL.Query "v"
        if id ≠ "" then (id, none)
        else ("", some "could not find video ID in URL")
      else if parsedURL.Host = "youtu.be" then
        let pathSegments := strings.Split parsedURL.Path '/'
        if pathSegments.length > 1 then (pathSegments.getD 1 "", none)
        else ("", some "could not find video ID in short URL")
      else ("", some "unsupported URL format")
    match settled with
    | (_, some err) => ("", some err)
    | (videoID, none) =>
      if videoID = "" then ("", some "could not extract video ID from URL")
      else (videoID, none)

/-- The method `YouTubeService.GenerateThumbnailURL` (YouTubeClient.go, lines
99-108). -/
def youtubeclient.GenerateThumbnailURL (parse : String → Except Error URL)
    (videoURL : String) : String × Option Error :=
  match youtubeclient.extractVideoID parse videoURL with
  | (_, some err) => ("", some err)
  | (videoID, none) => ("https://img.youtube.com/vi/" ++ videoID ++ "/maxresdefault.jpg", none)

/-- The first path segment after the host: the characters between the leading
slash of the path and the next slash; empty when the path has no leading slash. -/
def firstPathSegment (path : String) : String :=
  match path.data with
  | '/' :: rest => String.mk (rest.takeWhile (fun c => c != '/'))
  | _ => ""

/-! ## The command line -/

/-- The fields `isAsync` and `links` of the struct `ParserConsole`. -/
structure ParserConsole where
  isAsync : Bool
  links : List String
  deriving DecidableEq, Repr

/-- The method `ParserConsole.validateLinks` (command_parser.go, lines 82-91): the
error for the first link that does not parse or has an empty scheme or host. -/
def ParserConsole.validateLinks (parse : String → Except Error URL) :
    List String → Option Error
  | [] => none
  | link :: rest =>
    match parse link with
    | Except.error _ => some ("invalid link: " ++ link)
    | Except.ok parsedURL =>
      if parsedURL.Scheme = "" ∨ parsedURL.Host = "" then some ("invalid link: " ++ link)
      else ParserConsole.validateLinks parse rest

/-- The method `ParserConsole.ParseFlags` (command_parser.go, lines 40-71), given
what `flag.Parse()` has read: the value of `--async`, the value of `--links`
(empty when absent) and the positional arguments `flag.Args()`. It answers the
parser with its fields set, and the error. -/
def ParserConsole.ParseFlags (parse : String → Except Error URL) (asyncFlag : Bool)
    (linksFlag : String) (args : List String) : ParserConsole × Option Error :=
  let links := if linksFlag ≠ "" then strings.Split linksFlag ',' else args
  let pc : ParserConsole := ⟨asyncFlag, links⟩
  match ParserConsole.validateLinks parse pc.links with
  | some err => (pc, some ("failed to validate links: " ++ err))
  | none =>
    if pc.links.length = 0 then (pc, some "no video links provided")
    else (pc, none)

/-- A link that `validateLinks` rejects: it does not parse, or its scheme or its
host is empty. -/
def invalidLink (parse : String → Except Error URL) (link : String) : Bool :=
  match parse link with
  | Except.error _ => true
  | Except.ok parsedURL => parsedURL.Scheme == "" || parsedURL.Host == ""

/-- The answers of `url.Parse` on the URLs used in the evaluations below. Every
other string is answered with an error; that is a choice of this table, not the
behaviour of `url.Parse`. -/
def exampleParse : String → Except Error URL
  | "https://www.youtube.com/watch?v=ABC123" =>
    Except.ok ⟨"https", "www.youtube.com", "/watch", [("v", "ABC123")]⟩
  | "https://www.youtube.com/watch" => Except.ok ⟨"https", "www.youtube.com", "/watch", []⟩
  | "https://youtu.be/ABC123" => Except.ok ⟨"https", "youtu.be", "/ABC123", []⟩
  | "https://youtu.be/" => Except.ok ⟨"https", "youtu.be", "/", []⟩
  | "https://example.com/x" => Except.ok ⟨"https", "example.com", "/x", []⟩
  | "invalid-url" => Except.ok ⟨"", "", "invalid-url", []⟩
  | "http://" => Except.ok ⟨"http", "", "", []⟩
  | _ => Except.error "not in the table"

/-! ## The command line client -/

/-- The function `extractVideoID` of package `utils` (cli/utils/grpc.go, lines
102-136): the id, or the empty string where the server version returns an error.
The library function `url.Parse` is the argument `parse`. -/
def utils.extractVideoID (parse : String → Except Error URL) (videoURL : String) : String :=
  match parse videoURL with
  | Except.error _ => ""
  | Except.ok parsedURL =>
    if parsedURL.Host = "www.youtube.com" ∨ parsedURL.Host = "youtube.com" then
      let id := Values.Get parsedURL.Query "v"
      if id ≠ "" then id
      else ""
    else if parsedURL.Host = "youtu.be" then
      let pathSegments := strings.Split parsedURL.Path '/'
      if pathSegments.length > 1 then pathSegments.getD 1 ""
      else ""
    else ""

/-- The loop `for i, img := range resp.Images` of `SendData` (cli/utils/grpc.go,
lines 75-85), from index `i` on: for every image it reads `links[i]` and names the
file after the video id. The answer is `none` when some `links[i]` is out of
range, where the program panics; otherwise the file names with their contents, in
order. A failed `os.WriteFile` is only logged. -/
def utils.saveImages (parse : String → Except Error URL) (links : List String) :
    Nat → List Bytes → Option (List (String × Bytes))
  | _, [] => some []
  | i, img :: rest =>
    match links[i]? with
    | none => none
    | some link =>
      match utils.saveImages parse links (i + 1) rest with
      | none => none
      | some saved => some ((utils.extractVideoID parse link ++ ".jpeg", img) :: saved)

/-- The method `GRPCTransportSender.SendData` (cli/utils/grpc.go, lines 52-87).
`client` is the call `client.SendData(ctx, req)`, `mkdirAll` the error of
`os.MkdirAll`. The answer is `none` when the program panics, otherwise the
returned error and the files written. -/
def GRPCTransportSender.SendData (parse : String → Except Error URL)
    (client : SendDataRequest → Option SendDataResponse × Option Error)
    (mkdirAll : Option Error) (flag : Bool) (links : List String) :
    Option (Option Error × List (String × Bytes)) :=
  let req : SendDataRequest := ⟨flag, links⟩
  match client req with
  | (_, some err) => some (some ("ошибка при отправке данных: " ++ err), [])
  | (none, none) => none
  | (some resp, none) =>
    match mkdirAll with
    | some err =>
      some (some ("не удалось создать директорию для сохранения файлов: " ++ err), [])
    | none =>
      match utils.saveImages parse links 0 resp.Images with
      | none => none
      | some saved => some (none, saved)

/-- The client stub connected to a server whose handler is `dh`: the transport
carries the response, with as many images as the handler built, and the message
of the handler's error. -/
def serverClient (dh : DataHandler) (req : SendDataRequest) :
    Option SendDataResponse × Option Error :=
  ((dh.HandleSendData req).1, (dh.HandleSendData req).2.map (fun e => e.message))

/-! ## The resolver: claims C1 to C5 -/

/-- C1. When the store's lookup `GetPhotoByUrl` answers a cached (non-nil) blob
and a nil error, `getPhotoOrFetch` returns exactly that blob with a nil error and
makes no `FetchThumbnail` call. -/
theorem getPhotoOrFetch_hit {σ : Type} (bl : BusinessLogic σ) (key : String) (w w1 : σ)
    (blob : List Byte) (hit : bl.Sqlite.GetPhotoByUrl key w = ((some blob, none), w1)) :
    (getPhotoOrFetch bl key w).photo = some blob
      ∧ (getPhotoOrFetch bl key w).err = none
      ∧ fetchCount (getPhotoOrFetch bl key w).calls = 0 := by
  simp [getPhotoOrFetch, hit, fetchCount, Call.isFetch]

/-- The resolver on the one-row store: `k1` is served from the store without a
fetch. -/
theorem getPhotoOrFetch_hit_witness :
    (getPhotoOrFetch (sqliteLogic okFetch) "k1" (oneRowDb, 0)).photo = some [1, 2, 3]
      ∧ (getPhotoOrFetch (sqliteLogic okFetch) "k1" (oneRowDb, 0)).err = none
      ∧ fetchCount (getPhotoOrFetch (sqliteLogic okFetch) "k1" (oneRowDb, 0)).calls = 0 :=
  getPhotoOrFetch_hit (sqliteLogic okFetch) "k1" (oneRowDb, 0) (oneRowDb, 0) [1, 2, 3]
    (by decide)

/-- C2. When the store's lookup `GetPhotoByUrl` answers an error `e`,
`getPhotoOrFetch` returns the nil blob and exactly `e`, and makes no
`FetchThumbnail` call. -/
theorem getPhotoOrFetch_lookup_error {σ : Type} (bl : BusinessLogic σ) (key : String)
    (w w1 : σ) (photo : Bytes) (e : Error)
    (failed : bl.Sqlite.GetPhotoByUrl key w = ((photo, some e), w1)) :
    (getPhotoOrFetch bl key w).photo = none
      ∧ (getPhotoOrFetch bl key w).err = some e
      ∧ fetchCount (getPhotoOrFetch bl key w).calls = 0 := by
  simp [getPhotoOrFetch, failed, fetchCount, Call.isFetch]

/-- The resolver on the store whose queries fail: the lookup error comes back and
the fetcher, which would have succeeded, is not called. -/
theorem getPhotoOrFetch_lookup_error_witness :
    (getPhotoOrFetch (sqliteLogic okFetch) "k1" (brokenDb, 0)).photo = none
      ∧ (getPhotoOrFetch (sqliteLogic okFetch) "k1" (brokenDb, 0)).err
          = some "database is locked"
      ∧ fetchCount (getPhotoOrFetch (sqliteLogic okFetch) "k1" (brokenDb, 0)).calls = 0 :=
  getPhotoOrFetch_lookup_error (sqliteLogic okFetch) "k1" (brokenDb, 0) (brokenDb, 0) none
    "database is locked" (by decide)

/-- C3. When the key is absent from the store (the lookup answers nil, nil) and
`FetchThumbnail` succeeds with blob `b`, `getPhotoOrFetch` calls `FetchThumbnail`
exactly once and returns `(b, nil)`, whatever `InsertResource` answers, be it nil
or an error. -/
theorem getPhotoOrFetch_miss_fetched {σ : Type} (bl : BusinessLogic σ) (key : String)
    (w w1 w2 : σ) (b : Bytes)
    (miss : bl.Sqlite.GetPhotoByUrl key w = ((none, none), w1))
    (fetched : bl.YouTubeService.FetchThumbnail key w1 = ((b, none), w2)) :
    (getPhotoOrFetch bl key w).photo = b
      ∧ (getPhotoOrFetch bl key w).err = none
      ∧ fetchCount (getPhotoOrFetch bl key w).calls = 1
      ∧ (getPhotoOrFetch bl key w).calls
          = [Call.getPhotoOrFetch key, Call.GetPhotoByUrl key, Call.FetchThumbnail key,
              Call.InsertResource key b] := by
  simp [getPhotoOrFetch, miss, fetched, fetchCount, Call.isFetch]

/-- The resolver on the store that refuses writes: `InsertResource` fails, and the
fetched blob is still returned as a success after one fetch. -/
theorem getPhotoOrFetch_miss_fetched_witness :
    (SQLiteDatabase.InsertResource "k2" (some [7, 8]) readOnlyDb).1
        = some "attempt to write a readonly database"
      ∧ (getPhotoOrFetch (sqliteLogic okFetch) "k2" (readOnlyDb, 0)).photo = some [7, 8]
      ∧ (getPhotoOrFetch (sqliteLogic okFetch) "k2" (readOnlyDb, 0)).err = none
      ∧ fetchCount (getPhotoOrFetch (sqliteLogic okFetch) "k2" (readOnlyDb, 0)).calls = 1
      ∧ (getPhotoOrFetch (sqliteLogic okFetch) "k2" (readOnlyDb, 0)).calls
          = [Call.getPhotoOrFetch "k2", Call.GetPhotoByUrl "k2", Call.FetchThumbnail "k2",
              Call.InsertResource "k2" (some [7, 8])] :=
  ⟨by decide,
    getPhotoOrFetch_miss_fetched (sqliteLogic okFetch) "k2" (readOnlyDb, 0) (readOnlyDb, 0)
      (readOnlyDb, 1) (some [7, 8]) (by decide) (by decide)⟩

/-- A row found by the store's query is a row of the table with the asked url. -/
theorem find_url_mem (rows : List Row) (key : String) (row : Row)
    (h : rows.find? (fun r => r.url == key) = some row) : row ∈ rows ∧ row.url = key := by
  have h1 := List.find?_some h
  have h2 := List.mem_of_find?_eq_some h
  exact ⟨h2, by simpa using h1⟩

/-- C4, as stated, fails: on the store that refuses writes the first call for `k2`
returns successfully (fetched blob, nil error), yet the repeated call fetches
again instead of making zero `FetchThumbnail` calls. -/
theorem getPhotoOrFetch_repeat_refetches :
    ¬ ((getPhotoOrFetch (sqliteLogic okFetch) "k2" (readOnlyDb, 0)).err = none →
        fetchCount (getPhotoOrFetch (sqliteLogic okFetch) "k2"
            (getPhotoOrFetch (sqliteLogic okFetch) "k2" (readOnlyDb, 0)).world).calls = 0
          ∧ (getPhotoOrFetch (sqliteLogic okFetch) "k2"
              (getPhotoOrFetch (sqliteLogic okFetch) "k2" (readOnlyDb, 0)).world).photo
            = (getPhotoOrFetch (sqliteLogic okFetch) "k2" (readOnlyDb, 0)).photo) := by
  decide

/-- C4, amended. On the SQLite store, for every key, every store state and every
fetcher: if one call of `getPhotoOrFetch` returned successfully, and it was a
cache hit (it made no `FetchThumbnail` call) or else it fetched a non-nil blob
that `InsertResource` stored (the store executes writes) in a table with no
NULL-photo row for that key, then the repeated call on the same key makes zero
`FetchThumbnail` calls and returns, with a nil error, the byte-identical blob. -/
theorem getPhotoOrFetch_repeat {ν : Type} (fetch : String → ν → (Bytes × Option Error) × ν)
    (key : String) (db : SQLiteDatabase) (n : ν)
    (ok : (getPhotoOrFetch (sqliteLogic fetch) key (db, n)).err = none)
    (stored : fetchCount (getPhotoOrFetch (sqliteLogic fetch) key (db, n)).calls = 0
      ∨ (db.execErr = none
          ∧ (getPhotoOrFetch (sqliteLogic fetch) key (db, n)).photo ≠ none
          ∧ ∀ row ∈ db.rows, row.url = key → row.photo ≠ none)) :
    fetchCount (getPhotoOrFetch (sqliteLogic fetch) key
        (getPhotoOrFetch (sqliteLogic fetch) key (db, n)).world).calls = 0
      ∧ (getPhotoOrFetch (sqliteLogic fetch) key
          (getPhotoOrFetch (sqliteLogic fetch) key (db, n)).world).err = none
      ∧ (getPhotoOrFetch (sqliteLogic fetch) key
          (getPhotoOrFetch (sqliteLogic fetch) key (db, n)).world).photo
        = (getPhotoOrFetch (sqliteLogic fetch) key (db, n)).photo := by
  obtain ⟨rows, execErr, getErr⟩ := db
  cases getErr with
  | some e => simp [getPhotoOrFetch, sqliteLogic, SQLiteDatabase.GetPhotoByUrl] at ok
  | none =>
    cases hfind : rows.find? (fun r => r.url == key) with
    | some row =>
      obtain ⟨hmem, hurl⟩ := find_url_mem rows key row hfind
      cases hp : row.photo with
      | some p =>
        simp [getPhotoOrFetch, sqliteLogic, SQLiteDatabase.GetPhotoByUrl, hfind, hp,
          fetchCount, Call.isFetch]
      | none =>
        rcases stored with h0 | ⟨_, _, hrows⟩
        · revert h0
          simp only [getPhotoOrFetch, sqliteLogic, SQLiteDatabase.GetPhotoByUrl, hfind, hp,
            fetchCount]
          split <;> simp [Call.isFetch]
        · exact absurd hp (hrows row hmem hurl)
    | none =>
      cases hf : (fetch key n).1.2 with
      | some e =>
        simp [getPhotoOrFetch, sqliteLogic, SQLiteDatabase.GetPhotoByUrl, hfind, hf] at ok
      | none =>
        rcases stored with h0 | ⟨hexec, hphoto, _⟩
        · simp [getPhotoOrFetch, sqliteLogic, SQLiteDatabase.GetPhotoByUrl, hfind, hf,
            fetchCount, Call.isFetch] at h0
        · simp only at hexec
          subst hexec
          cases hb : (fetch key n).1.1 with
          | none =>
            simp [getPhotoOrFetch, sqliteLogic, SQLiteDatabase.GetPhotoByUrl, hfind, hf, hb]
              at hphoto
          | some p =>
            simp [getPhotoOrFetch, sqliteLogic, SQLiteDatabase.GetPhotoByUrl,
              SQLiteDatabase.InsertResource, hfind, hf, hb, fetchCount, Call.isFetch,
              List.find?_append]

/-- The resolver twice on the one-row store for the absent key `k2`: the first
call fetches and stores `[7, 8]`, the second is served from the store. -/
theorem getPhotoOrFetch_repeat_witness :
    fetchCount (getPhotoOrFetch (sqliteLogic okFetch) "k2" (oneRowDb, 0)).calls = 1
      ∧ fetchCount (getPhotoOrFetch (sqliteLogic okFetch) "k2"
          (getPhotoOrFetch (sqliteLogic okFetch) "k2" (oneRowDb, 0)).world).calls = 0
      ∧ (getPhotoOrFetch (sqliteLogic okFetch) "k2"
          (getPhotoOrFetch (sqliteLogic okFetch) "k2" (oneRowDb, 0)).world).err = none
      ∧ (getPhotoOrFetch (sqliteLogic okFetch) "k2"
          (getPhotoOrFetch (sqliteLogic okFetch) "k2" (oneRowDb, 0)).world).photo
        = (getPhotoOrFetch (sqliteLogic okFetch) "k2" (oneRowDb, 0)).photo :=
  ⟨by decide,
    getPhotoOrFetch_repeat okFetch "k2" oneRowDb 0 (by decide)
      (Or.inr ⟨by decide, by decide, by decide⟩)⟩

/-- C5. When the key is absent from the store (the lookup answers nil, nil) and
`FetchThumbnail` answers an error `e`, `getPhotoOrFetch` returns the nil blob and
exactly `e`. -/
theorem getPhotoOrFetch_fetch_error {σ : Type} (bl : BusinessLogic σ) (key : String)
    (w w1 w2 : σ) (photo : Bytes) (e : Error)
    (miss : bl.Sqlite.GetPhotoByUrl key w = ((none, none), w1))
    (failed : bl.YouTubeService.FetchThumbnail key w1 = ((photo, some e), w2)) :
    (getPhotoOrFetch bl key w).photo = none ∧ (getPhotoOrFetch bl key w).err = some e := by
  simp [getPhotoOrFetch, miss, failed]

/-- The resolver on the empty store with the failing fetcher: the fetch error
comes back. -/
theorem getPhotoOrFetch_fetch_error_witness :
    (getPhotoOrFetch (sqliteLogic failFetch) "k3" (emptyDb, 0)).photo = none
      ∧ (getPhotoOrFetch (sqliteLogic failFetch) "k3" (emptyDb, 0)).err
          = some "unsupported URL format" :=
  getPhotoOrFetch_fetch_error (sqliteLogic failFetch) "k3" (emptyDb, 0) (emptyDb, 0)
    (emptyDb, 1) none "unsupported URL format" (by decide) (by decide)

/-! ## Sequential mode: claims C6 to C8 -/

/-- The loop of `process` never sets an error. -/
theorem processLoop_err {σ : Type} (bl : BusinessLogic σ) (links : List String) :
    ∀ (photos : List Bytes) (w : σ) (cs : List Call),
      (processLoop bl links photos w cs).err = none := by
  induction links with
  | nil => intro photos w cs; rfl
  | cons link rest ih =>
    intro photos w cs
    simp only [processLoop]
    split
    · exact ih _ _ _
    · split
      · exact ih _ _ _
      · exact ih _ _ _

/-- The loop of `process` appends, in order, the blobs of the resolutions that
returned no error and a non-nil blob. -/
theorem processLoop_photos {σ : Type} (bl : BusinessLogic σ) (links : List String) :
    ∀ (photos : List Bytes) (w : σ) (cs : List Call),
      (processLoop bl links photos w cs).photos
        = photos ++ nonNilSuccessBlobs (resolutions bl links w) := by
  induction links with
  | nil => intro photos w cs; simp [processLoop, resolutions, nonNilSuccessBlobs]
  | cons link rest ih =>
    intro photos w cs
    simp only [processLoop, resolutions]
    split
    · next e he =>
      rw [ih]
      simp [nonNilSuccessBlobs, he]
    · next he =>
      split
      · next p hp =>
        rw [ih]
        simp [nonNilSuccessBlobs, he, hp]
      · next hp =>
        rw [ih]
        simp [nonNilSuccessBlobs, he, hp]

/-- The calls of the loop of `process` are the calls of the per-key resolutions,
one resolution after the other. -/
theorem processLoop_calls {σ : Type} (bl : BusinessLogic σ) (links : List String) :
    ∀ (photos : List Bytes) (w : σ) (cs : List Call),
      (processLoop bl links photos w cs).calls
        = cs ++ ((resolutions bl links w).map (fun r => r.calls)).flatten := by
  induction links with
  | nil => intro photos w cs; simp [processLoop, resolutions]
  | cons link rest ih =>
    intro photos w cs
    simp only [processLoop, resolutions]
    split
    · rw [ih]; simp
    · split
      · rw [ih]; simp
      · rw [ih]; simp

/-- One resolution enters `getPhotoOrFetch` once, for its own link. -/
theorem getPhotoOrFetch_entry {σ : Type} (bl : BusinessLogic σ) (link : String) (w : σ) :
    (getPhotoOrFetch bl link w).calls.filter Call.isResolve = [Call.getPhotoOrFetch link] := by
  simp only [getPhotoOrFetch]
  split
  · simp [Call.isResolve]
  · split
    · simp [Call.isResolve]
    · split <;> simp [Call.isResolve]

/-- The resolver entries among the calls of the per-key resolutions. -/
theorem resolutions_entries {σ : Type} (bl : BusinessLogic σ) (links : List String) :
    ∀ (w : σ), (((resolutions bl links w).map (fun r => r.calls)).flatten).filter
        Call.isResolve = links.map Call.getPhotoOrFetch := by
  induction links with
  | nil => intro w; simp [resolutions]
  | cons link rest ih =>
    intro w
    simp only [resolutions, List.map_cons, List.flatten_cons, List.filter_append]
    rw [ih, getPhotoOrFetch_entry]
    rfl

/-- There is one resolution per link. -/
theorem resolutions_length {σ : Type} (bl : BusinessLogic σ) (links : List String) :
    ∀ (w : σ), (resolutions bl links w).length = links.length := by
  induction links with
  | nil => intro w; rfl
  | cons link rest ih => intro w; simp [resolutions, ih]

/-- C6. In sequential mode (`ProcessData` with `flag = false`, that is `process`),
for every list of keys and every behaviour of the store and of the fetcher, the
call returns, and the error it returns is nil. -/
theorem ProcessData_sequential_no_error {σ : Type} (bl : BusinessLogic σ)
    (links : List String) (sched : List Action) (w : σ) :
    ProcessData bl false links sched w = some ((process bl links w).photos, none)
      ∧ (process bl links w).err = none := by
  have h : (process bl links w).err = none := processLoop_err bl links [] w []
  simp [ProcessData, h]

/-- C7, as stated, fails: with a fetcher that answers a nil blob and a nil error,
the resolution of the absent key `k` succeeds (no error), yet `process` appends no
entry for it, so the output is not the list of blobs of the successful
resolutions. -/
theorem process_skips_nil_blob :
    (resolutions (sqliteLogic nilFetch) ["k"] (emptyDb, 0)).map (fun r => r.err) = [none]
      ∧ (process (sqliteLogic nilFetch) ["k"] (emptyDb, 0)).photos
          ≠ successBlobs (resolutions (sqliteLogic nilFetch) ["k"] (emptyDb, 0)) := by
  decide

/-- C7, amended. In sequential mode, for every list of keys the output is exactly
the list of blobs of the per-key resolutions that returned no error and a non-nil
blob, one entry per such key, in input order; hence `len(output) ≤ len(keys)`;
and for a batch `[k1 cached, k2 miss with a successful fetch of a non-nil blob,
k3 miss with a failing fetch]` the output is `[blob(k1), blob(k2)]` with a nil
error. -/
theorem process_output {σ : Type} (bl : BusinessLogic σ) (links : List String) (w : σ) :
    (process bl links w).photos = nonNilSuccessBlobs (resolutions bl links w)
      ∧ (process bl links w).photos.length ≤ links.length
      ∧ ∀ (k1 k2 k3 : String) (b1 b2 : List Byte) (p3 : Bytes) (e3 : Error)
          (ins : Option Error) (w1 w2 w3 w4 w5 w6 : σ),
          bl.Sqlite.GetPhotoByUrl k1 w = ((some b1, none), w1) →
          bl.Sqlite.GetPhotoByUrl k2 w1 = ((none, none), w2) →
          bl.YouTubeService.FetchThumbnail k2 w2 = ((some b2, none), w3) →
          bl.Sqlite.InsertResource k2 (some b2) w3 = (ins, w4) →
          bl.Sqlite.GetPhotoByUrl k3 w4 = ((none, none), w5) →
          bl.YouTubeService.FetchThumbnail k3 w5 = ((p3, some e3), w6) →
          (process bl [k1, k2, k3] w).photos = [some b1, some b2]
            ∧ (process bl [k1, k2, k3] w).err = none := by
  have hp : (process bl links w).photos = nonNilSuccessBlobs (resolutions bl links w) := by
    simpa [process] using processLoop_photos bl links [] w []
  refine ⟨hp, ?_, ?_⟩
  · rw [hp, ← resolutions_length bl links w]
    simp only [nonNilSuccessBlobs, List.length_map]
    exact List.length_filter_le _ _
  · intro k1 k2 k3 b1 b2 p3 e3 ins w1 w2 w3 w4 w5 w6 h1 h2 h3 h4 h5 h6
    simp [process, processLoop, getPhotoOrFetch, h1, h2, h3, h4, h5, h6]

/-- The batch `[k1, k2, k3]` on the one-row store, with a fetcher that succeeds on
`k2` only: `k1` is cached, `k2` is fetched, `k3` fails; the output is the two
blobs, in input order, within the length bound. -/
theorem process_output_witness :
    (process (sqliteLogic mixedFetch) ["k1", "k2", "k3"] (oneRowDb, 0)).photos.length ≤ 3
      ∧ (process (sqliteLogic mixedFetch) ["k1", "k2", "k3"] (oneRowDb, 0)).photos
          = [some [1, 2, 3], some [7, 8]]
      ∧ (process (sqliteLogic mixedFetch) ["k1", "k2", "k3"] (oneRowDb, 0)).err = none :=
  ⟨(process_output (sqliteLogic mixedFetch) ["k1", "k2", "k3"] (oneRowDb, 0)).2.1,
    (process_output (sqliteLogic mixedFetch) ["k1", "k2", "k3"] (oneRowDb, 0)).2.2
      "k1" "k2" "k3" [1, 2, 3] [7, 8] none "unsupported URL format" none
      (oneRowDb, 0) (oneRowDb, 0) (oneRowDb, 1)
      (⟨[⟨1, "k1", some [1, 2, 3]⟩, ⟨2, "k2", some [7, 8]⟩], none, none⟩, 1)
      (⟨[⟨1, "k1", some [1, 2, 3]⟩, ⟨2, "k2", some [7, 8]⟩], none, none⟩, 1)
      (⟨[⟨1, "k1", some [1, 2, 3]⟩, ⟨2, "k2", some [7, 8]⟩], none, none⟩, 2)
      (by decide) (by decide) (by decide) (by decide) (by decide) (by decide)⟩

/-- C8. In sequential mode a failing key never stops the batch: for every list of
keys and every behaviour of the store and of the fetcher, `getPhotoOrFetch` is
entered exactly once for every key of the list, in input order; the calls of the
batch are those of the per-key resolutions, one after the other, and there are
as many resolutions as keys. -/
theorem process_resolves_every_key {σ : Type} (bl : BusinessLogic σ) (links : List String)
    (w : σ) :
    (process bl links w).calls.filter Call.isResolve = links.map Call.getPhotoOrFetch
      ∧ (process bl links w).calls
          = ((resolutions bl links w).map (fun r => r.calls)).flatten
      ∧ (resolutions bl links w).length = links.length := by
  have hc : (process bl links w).calls
      = ((resolutions bl links w).map (fun r => r.calls)).flatten := by
    simpa [process] using processLoop_calls bl links [] w []
  refine ⟨?_, hc, resolutions_length bl links w⟩
  rw [hc]
  exact resolutions_entries bl links w


/-! ## Concurrent mode: invariants of the transition system -/

/-- Replacing entry `i`, which held `a`, by `b` moves the sum by the difference. -/
theorem sum_set (l : List Nat) :
    ∀ (i a b : Nat), l[i]? = some a → (l.set i b).sum + a = l.sum + b := by
  induction l with
  | nil => intro i a b h; simp at h
  | cons x rest ih =>
    intro i a b h
    cases i with
    | zero =>
      simp at h
      subst h
      simp
      omega
    | succ j =>
      simp at h
      have := ih j a b h
      simp
      omega

/-- A unit at position `i` is a member of the list of units. -/
theorem mem_of_getElem? {α : Type} (l : List α) (i : Nat) (a : α) (h : l[i]? = some a) :
    a ∈ l :=
  List.mem_iff_getElem?.mpr ⟨i, h⟩

/-- A position that holds a unit is within the list. -/
theorem lt_of_getElem? {α : Type} (l : List α) (i : Nat) (a : α) (h : l[i]? = some a) :
    i < l.length := by
  obtain ⟨hlt, _⟩ := List.getElem?_eq_some.mp h
  exact hlt

/-- While some unit is not done, fewer units are done than were spawned. -/
theorem sum_doneBit_lt (units : List GoUnit) :
    ∀ (i : Nat) (u : GoUnit), units[i]? = some u → u.isDone = false →
      (units.map doneBit).sum < units.length := by
  induction units with
  | nil => intro i u h; simp at h
  | cons a rest ih =>
    intro i u h hu
    have hle : ∀ l : List GoUnit, (l.map doneBit).sum ≤ l.length := by
      intro l
      induction l with
      | nil => simp
      | cons b t iht =>
        simp only [List.map_cons, List.sum_cons, List.length_cons]
        have : doneBit b ≤ 1 := by unfold doneBit; split <;> omega
        omega
    cases i with
    | zero =>
      simp at h
      subst h
      have := hle rest
      simp [doneBit, hu]
      omega
    | succ j =>
      simp at h
      have := ih j u h hu
      have : doneBit a ≤ 1 := by unfold doneBit; split <;> omega
      simp
      omega

/-- Every step strictly lowers the measure: runs are finite. -/
theorem step_measure {σ : Type} (bl : BusinessLogic σ) (a : Action) (s s2 : AsyncState σ)
    (h : step bl a s = some s2) : s2.measure < s.measure := by
  cases a with
  | spawn =>
    simp only [step] at h
    split at h
    · simp at h
    · next link rest hp =>
      simp at h
      subst h
      simp [AsyncState.measure, hp, UnitPc.weight]
      omega
  | unit i =>
    simp only [step] at h
    split at h
    · simp at h
    · next u hu =>
      simp only [stepUnit] at h
      split at h
      · simp at h
      · next photo err hpc =>
        split at h
        · simp at h
          subst h
          have key := sum_set (s.units.map (fun u => u.pc.weight)) i u.pc.weight
            (UnitPc.done photo (some err)).weight (by simp [hu])
          have h1 : u.pc.weight = 2 := by rw [hpc]; rfl
          have h2 : (UnitPc.done photo (some err)).weight = 0 := rfl
          simp [AsyncState.measure]
          omega
        · simp at h
      · next photo hpc =>
        split at h
        · simp at h
          subst h
          have key := sum_set (s.units.map (fun u => u.pc.weight)) i u.pc.weight
            (UnitPc.done photo none).weight (by simp [hu])
          have h1 : u.pc.weight = 2 := by rw [hpc]; rfl
          have h2 : (UnitPc.done photo none).weight = 0 := rfl
          simp [AsyncState.measure]
          omega
        · simp at h
      · next pc hnd hns1 hns2 =>
        simp at h
        subst h
        have key := sum_set (s.units.map (fun u => u.pc.weight)) i u.pc.weight
          (resolveStep bl u.link u.pc s.world).1.weight (by simp [hu])
        have hw : (resolveStep bl u.link u.pc s.world).1.weight < u.pc.weight := by
          cases hpc : u.pc with
          | lookup =>
            simp only [resolveStep]
            split
            · simp [UnitPc.weight]
            · split <;> simp [UnitPc.weight]
          | fetch =>
            simp only [resolveStep]
            split <;> simp [UnitPc.weight]
          | insert p => simp [resolveStep, UnitPc.weight]
          | send p e =>
            cases e with
            | none => exact absurd hpc (hns2 p)
            | some e => exact absurd hpc (hns1 p e)
          | done p e => exact absurd hpc (hnd p e)
        simp [AsyncState.measure]
        omega
  | closeCh =>
    simp only [step] at h
    split at h
    · next hc =>
      simp at h
      subst h
      simp [AsyncState.measure, hc.2.2]
    · simp at h
  | closeErrCh =>
    simp only [step] at h
    split at h
    · next hc =>
      simp at h
      subst h
      simp [AsyncState.measure, hc.1, hc.2]
    · simp at h
  | recvCh =>
    simp only [step] at h
    split at h
    · next hc =>
      split at h
      · next photo rest hch =>
        simp at h
        subst h
        simp [AsyncState.measure, hch]
      · next hch =>
        split at h
        · simp at h
          subst h
          simp [AsyncState.measure, hc.2.2]
        · simp at h
    · simp at h
  | recvErrCh =>
    simp only [step] at h
    split at h
    · next hc =>
      split at h
      · next err rest hch =>
        simp at h
        subst h
        simp [AsyncState.measure, hch]
      · next hch =>
        split at h
        · simp at h
          subst h
          simp [AsyncState.measure, hc.2.2]
        · simp at h
    · simp at h

/-- Replacing the standing point of a goroutine keeps the links of the units. -/
theorem map_link_set (units : List GoUnit) :
    ∀ (i : Nat) (u : GoUnit) (pc : UnitPc), units[i]? = some u →
      (units.set i ⟨u.link, pc⟩).map GoUnit.link = units.map GoUnit.link := by
  induction units with
  | nil => intro i u pc h; simp at h
  | cons a rest ih =>
    intro i u pc h
    cases i with
    | zero =>
      simp at h
      subst h
      simp
    | succ j =>
      simp at h
      have := ih j u pc h
      simpa using this

/-- The invariant holds on entry. -/
theorem inv_init {σ : Type} (links : List String) (w : σ) :
    Inv links (AsyncState.init links w) := by
  constructor <;> simp [AsyncState.init, receivedErrs]

/-- The spawning loop keeps the invariant. -/
theorem inv_spawn {σ : Type} (links : List String) (s : AsyncState σ) (link : String)
    (rest : List String) (hp : s.pending = link :: rest) (h : Inv links s) :
    Inv links { s with pending := rest, units := s.units ++ [⟨link, UnitPc.lookup⟩] } := by
  have hnc : s.chClosed = false := by
    cases hc : s.chClosed with
    | false => rfl
    | true => have := (h.closed_done hc).1; simp [hp] at this
  have hnn : s.chNil = false := by
    cases hc : s.chNil with
    | false => rfl
    | true => have := (h.chNil_drained hc).1; simp [hnc] at this
  have hne : s.errChClosed = false := by
    cases hc : s.errChClosed with
    | false => rfl
    | true => have := h.errClosed_closed hc; simp [hnc] at this
  have hnen : s.errChNil = false := by
    cases hc : s.errChNil with
    | false => rfl
    | true => have := (h.errChNil_drained hc).1; simp [hne] at this
  constructor
  · exact h.cap_eq
  · have := h.links_eq
    simp [hp] at this
    simpa using this
  · intro hc; simp [hnc] at hc
  · intro hc; simp [hne] at hc
  · intro hc; simp [hnn] at hc
  · intro hc; simp [hnen] at hc
  · intro hc; simp [hnn] at hc
  · intro out hr
    have := (h.ret_ok out hr).1
    simp [hnn] at this
  · exact h.ret_err
  · exact h.err_hist
  · exact h.ch_hist
  · intro r hr
    obtain ⟨u, hu, hpc⟩ := h.rep_unit r hr
    refine ⟨u, ?_, hpc⟩
    show (s.units ++ [_])[r.index]? = some u
    rw [List.getElem?_append_left (lt_of_getElem? _ _ _ hu)]
    exact hu
  · intro i u hu hd
    change (s.units ++ [_])[i]? = some u at hu
    by_cases hlt : i < s.units.length
    · rw [List.getElem?_append_left hlt] at hu
      exact h.done_rep i u hu hd
    · rw [List.getElem?_append_right (by omega)] at hu
      have hmem := mem_of_getElem? _ _ _ hu
      simp at hmem
      subst hmem
      simp [GoUnit.isDone] at hd
  · exact h.rep_nodup
  · have := h.rep_count
    simp [doneBit, GoUnit.isDone]
    simpa [doneBit] using this

/-- While some goroutine is not done, `ch` is open. -/
theorem open_of_running {σ : Type} (links : List String) (s : AsyncState σ) (i : Nat)
    (u : GoUnit) (hu : s.units[i]? = some u) (hnd : u.isDone = false) (h : Inv links s) :
    s.chClosed = false := by
  cases hc : s.chClosed with
  | false => rfl
  | true =>
    have := (h.closed_done hc).2 u (mem_of_getElem? _ _ _ hu)
    simp [hnd] at this

/-- While some goroutine is not done, `errCh` is open. -/
theorem errOpen_of_running {σ : Type} (links : List String) (s : AsyncState σ) (i : Nat)
    (u : GoUnit) (hu : s.units[i]? = some u) (hnd : u.isDone = false) (h : Inv links s) :
    s.errChClosed = false := by
  cases hc : s.errChClosed with
  | false => rfl
  | true =>
    have := h.errClosed_closed hc
    simp [open_of_running links s i u hu hnd h] at this

/-- A goroutine that is not done has made no report. -/
theorem report_index_ne {σ : Type} (links : List String) (s : AsyncState σ) (i : Nat)
    (u : GoUnit) (hu : s.units[i]? = some u) (hnd : u.isDone = false) (h : Inv links s) :
    ∀ r ∈ s.reports, r.index ≠ i := by
  intro r hr heq
  obtain ⟨u2, hu2, hpc⟩ := h.rep_unit r hr
  rw [heq, hu] at hu2
  simp at hu2
  subst hu2
  simp [GoUnit.isDone, hpc] at hnd

/-- A collaborator call of a goroutine keeps the invariant. -/
theorem inv_resolve {σ : Type} (links : List String) (s : AsyncState σ) (i : Nat)
    (u : GoUnit) (pc : UnitPc) (w : σ) (cs : List Call)
    (hu : s.units[i]? = some u) (hnd : u.isDone = false)
    (hpc : (⟨u.link, pc⟩ : GoUnit).isDone = false) (h : Inv links s) :
    Inv links { s with world := w, calls := cs, units := s.units.set i ⟨u.link, pc⟩ } := by
  have hnc := open_of_running links s i u hu hnd h
  have hidx := report_index_ne links s i u hu hnd h
  constructor
  · exact h.cap_eq
  · have := h.links_eq
    simp only
    rw [map_link_set s.units i u pc hu]
    exact this
  · intro hc; simp [hnc] at hc
  · exact h.errClosed_closed
  · exact h.chNil_drained
  · exact h.errChNil_drained
  · exact h.both_nil
  · exact h.ret_ok
  · exact h.ret_err
  · exact h.err_hist
  · exact h.ch_hist
  · intro r hr
    obtain ⟨u2, hu2, hpc2⟩ := h.rep_unit r hr
    refine ⟨u2, ?_, hpc2⟩
    show (s.units.set i _)[r.index]? = some u2
    rw [List.getElem?_set_ne (Ne.symm (hidx r hr))]
    exact hu2
  · intro j u2 hu2 hd
    change (s.units.set i _)[j]? = some u2 at hu2
    by_cases hij : i = j
    · subst hij
      rw [List.getElem?_set_self (lt_of_getElem? _ _ _ hu)] at hu2
      simp at hu2
      subst hu2
      simp [hpc] at hd
    · rw [List.getElem?_set_ne hij] at hu2
      exact h.done_rep j u2 hu2 hd
  · exact h.rep_nodup
  · have key := sum_set (s.units.map doneBit) i (doneBit u) (doneBit ⟨u.link, pc⟩)
      (by simp [hu])
    have h1 : doneBit u = 0 := by simp [doneBit, hnd]
    have h2 : doneBit ⟨u.link, pc⟩ = 0 := by simp [doneBit, hpc]
    have := h.rep_count
    simp only [List.map_set]
    omega

/-- A send on `ch` keeps the invariant. -/
theorem inv_send_ok {σ : Type} (links : List String) (s : AsyncState σ) (i : Nat)
    (u : GoUnit) (photo : Bytes)
    (hu : s.units[i]? = some u) (hnd : u.isDone = false) (h : Inv links s) :
    Inv links { s with
      ch := s.ch ++ [photo]
      units := s.units.set i ⟨u.link, UnitPc.done photo none⟩
      reports := s.reports ++ [⟨i, photo, none⟩] } := by
  have hnc := open_of_running links s i u hu hnd h
  have hne := errOpen_of_running links s i u hu hnd h
  have hidx := report_index_ne links s i u hu hnd h
  have hlt := lt_of_getElem? _ _ _ hu
  have hnn : s.chNil = false := by
    cases hc : s.chNil with
    | false => rfl
    | true => have := (h.chNil_drained hc).1; simp [hnc] at this
  constructor
  · exact h.cap_eq
  · have := h.links_eq
    simp only
    rw [map_link_set s.units i u _ hu]
    exact this
  · intro hc; simp [hnc] at hc
  · exact h.errClosed_closed
  · intro hc; simp [hnn] at hc
  · exact h.errChNil_drained
  · exact h.both_nil
  · intro out hr
    have := (h.ret_ok out hr).1
    simp [hnn] at this
  · exact h.ret_err
  · have := h.err_hist
    simpa [List.filterMap_append] using this
  · have := h.ch_hist
    simp [List.filterMap_append, Report.onCh, this]
  · intro r hr
    simp only [List.mem_append, List.mem_singleton] at hr
    rcases hr with hr | hr
    · obtain ⟨u2, hu2, hpc2⟩ := h.rep_unit r hr
      refine ⟨u2, ?_, hpc2⟩
      show (s.units.set i _)[r.index]? = some u2
      rw [List.getElem?_set_ne (Ne.symm (hidx r hr))]
      exact hu2
    · subst hr
      refine ⟨⟨u.link, UnitPc.done photo none⟩, ?_, rfl⟩
      show (s.units.set i _)[i]? = some _
      rw [List.getElem?_set_self hlt]
  · intro j u2 hu2 hd
    change (s.units.set i _)[j]? = some u2 at hu2
    by_cases hij : i = j
    · subst hij
      simp
    · rw [List.getElem?_set_ne hij] at hu2
      have := h.done_rep j u2 hu2 hd
      simp only [List.map_append, List.mem_append]
      exact Or.inl this
  · have := h.rep_nodup
    simp only [List.map_append, List.map_cons, List.map_nil]
    rw [List.nodup_append]
    refine ⟨this, by simp, ?_⟩
    intro a ha hb
    simp at hb
    subst hb
    obtain ⟨r, hr, hri⟩ := List.mem_map.mp ha
    exact hidx r hr hri
  · have key := sum_set (s.units.map doneBit) i (doneBit u)
      (doneBit ⟨u.link, UnitPc.done photo none⟩) (by simp [hu])
    have h1 : doneBit u = 0 := by simp [doneBit, hnd]
    have h2 : doneBit ⟨u.link, UnitPc.done photo none⟩ = 1 := by simp [doneBit, GoUnit.isDone]
    have := h.rep_count
    simp only [List.map_set, List.length_append, List.length_singleton]
    omega

/-- A send on `errCh` keeps the invariant. -/
theorem inv_send_err {σ : Type} (links : List String) (s : AsyncState σ) (i : Nat)
    (u : GoUnit) (photo : Bytes) (err : Error)
    (hu : s.units[i]? = some u) (hnd : u.isDone = false) (h : Inv links s) :
    Inv links { s with
      errCh := s.errCh ++ [err]
      units := s.units.set i ⟨u.link, UnitPc.done photo (some err)⟩
      reports := s.reports ++ [⟨i, photo, some err⟩] } := by
  have hnc := open_of_running links s i u hu hnd h
  have hne := errOpen_of_running links s i u hu hnd h
  have hidx := report_index_ne links s i u hu hnd h
  have hlt := lt_of_getElem? _ _ _ hu
  have hnn : s.errChNil = false := by
    cases hc : s.errChNil with
    | false => rfl
    | true => have := (h.errChNil_drained hc).1; simp [hne] at this
  constructor
  · exact h.cap_eq
  · have := h.links_eq
    simp only
    rw [map_link_set s.units i u _ hu]
    exact this
  · intro hc; simp [hnc] at hc
  · exact h.errClosed_closed
  · exact h.chNil_drained
  · intro hc; simp [hnn] at hc
  · exact h.both_nil
  · intro out hr
    have := (h.ret_ok out hr).2.1
    simp [hnn] at this
  · exact h.ret_err
  · have := h.err_hist
    simp [List.filterMap_append, this]
  · have := h.ch_hist
    simpa [List.filterMap_append, Report.onCh] using this
  · intro r hr
    simp only [List.mem_append, List.mem_singleton] at hr
    rcases hr with hr | hr
    · obtain ⟨u2, hu2, hpc2⟩ := h.rep_unit r hr
      refine ⟨u2, ?_, hpc2⟩
      show (s.units.set i _)[r.index]? = some u2
      rw [List.getElem?_set_ne (Ne.symm (hidx r hr))]
      exact hu2
    · subst hr
      refine ⟨⟨u.link, UnitPc.done photo (some err)⟩, ?_, rfl⟩
      show (s.units.set i _)[i]? = some _
      rw [List.getElem?_set_self hlt]
  · intro j u2 hu2 hd
    change (s.units.set i _)[j]? = some u2 at hu2
    by_cases hij : i = j
    · subst hij
      simp
    · rw [List.getElem?_set_ne hij] at hu2
      have := h.done_rep j u2 hu2 hd
      simp only [List.map_append, List.mem_append]
      exact Or.inl this
  · have := h.rep_nodup
    simp only [List.map_append, List.map_cons, List.map_nil]
    rw [List.nodup_append]
    refine ⟨this, by simp, ?_⟩
    intro a ha hb
    simp at hb
    subst hb
    obtain ⟨r, hr, hri⟩ := List.mem_map.mp ha
    exact hidx r hr hri
  · have key := sum_set (s.units.map doneBit) i (doneBit u)
      (doneBit ⟨u.link, UnitPc.done photo (some err)⟩) (by simp [hu])
    have h1 : doneBit u = 0 := by simp [doneBit, hnd]
    have h2 : doneBit ⟨u.link, UnitPc.done photo (some err)⟩ = 1 := by
      simp [doneBit, GoUnit.isDone]
    have := h.rep_count
    simp only [List.map_set, List.length_append, List.length_singleton]
    omega

/-- Every step keeps the invariant. -/
theorem inv_step {σ : Type} (bl : BusinessLogic σ) (links : List String) (a : Action)
    (s s2 : AsyncState σ) (h : Inv links s) (hs : step bl a s = some s2) : Inv links s2 := by
  cases a with
  | spawn =>
    simp only [step] at hs
    split at hs
    · simp at hs
    · next link rest hp =>
      simp at hs
      subst hs
      exact inv_spawn links s link rest hp h
  | unit i =>
    simp only [step] at hs
    split at hs
    · simp at hs
    · next u hu =>
      simp only [stepUnit] at hs
      split at hs
      · simp at hs
      · next photo err hpc =>
        split at hs
        · simp at hs
          subst hs
          exact inv_send_err links s i u photo err hu (by simp [GoUnit.isDone, hpc]) h
        · simp at hs
      · next photo hpc =>
        split at hs
        · simp at hs
          subst hs
          exact inv_send_ok links s i u photo hu (by simp [GoUnit.isDone, hpc]) h
        · simp at hs
      · next pc hnd hns1 hns2 =>
        simp at hs
        subst hs
        have hund : u.isDone = false := by
          cases hpc : u.pc with
          | done p e => exact absurd hpc (hnd p e)
          | _ => simp [GoUnit.isDone, hpc]
        refine inv_resolve links s i u _ _ _ hu hund ?_ h
        cases hpc : u.pc with
        | lookup =>
          simp only [resolveStep]
          split
          · simp [GoUnit.isDone]
          · split <;> simp [GoUnit.isDone]
        | fetch =>
          simp only [resolveStep]
          split <;> simp [GoUnit.isDone]
        | insert p => simp [resolveStep, GoUnit.isDone]
        | send p e => simp [resolveStep, GoUnit.isDone]
        | done p e => exact absurd hpc (hnd p e)
  | closeCh =>
    simp only [step] at hs
    split at hs
    · next hc =>
      simp at hs
      subst hs
      obtain ⟨hp, hall, hcl⟩ := hc
      have hne : s.errChClosed = false := by
        cases hc : s.errChClosed with
        | false => rfl
        | true => have := h.errClosed_closed hc; simp [hcl] at this
      constructor
      · exact h.cap_eq
      · exact h.links_eq
      · intro _
        exact ⟨hp, by simpa using hall⟩
      · intro hc2; simp [hne] at hc2
      · intro hc2
        have := (h.chNil_drained hc2).1
        simp [hcl] at this
      · exact h.errChNil_drained
      · exact h.both_nil
      · exact h.ret_ok
      · exact h.ret_err
      · exact h.err_hist
      · exact h.ch_hist
      · exact h.rep_unit
      · exact h.done_rep
      · exact h.rep_nodup
      · exact h.rep_count
    · simp at hs
  | closeErrCh =>
    simp only [step] at hs
    split at hs
    · next hc =>
      simp at hs
      subst hs
      obtain ⟨hcl, hne⟩ := hc
      constructor
      · exact h.cap_eq
      · exact h.links_eq
      · exact h.closed_done
      · intro _; exact hcl
      · exact h.chNil_drained
      · intro hc2
        have := (h.errChNil_drained hc2).1
        simp [hne] at this
      · exact h.both_nil
      · exact h.ret_ok
      · exact h.ret_err
      · exact h.err_hist
      · exact h.ch_hist
      · exact h.rep_unit
      · exact h.done_rep
      · exact h.rep_nodup
      · exact h.rep_count
    · simp at hs
  | recvCh =>
    simp only [step] at hs
    split at hs
    · next hc =>
      obtain ⟨hp, hret, hnn⟩ := hc
      split at hs
      · next photo rest hch =>
        simp at hs
        subst hs
        constructor
        · exact h.cap_eq
        · exact h.links_eq
        · exact h.closed_done
        · exact h.errClosed_closed
        · intro hc2; simp [hnn] at hc2
        · exact h.errChNil_drained
        · intro hc2; simp [hnn] at hc2
        · intro out hr; simp [hret] at hr
        · intro out e hr; simp [hret] at hr
        · exact h.err_hist
        · have := h.ch_hist
          simp [this, hch]
        · exact h.rep_unit
        · exact h.done_rep
        · exact h.rep_nodup
        · exact h.rep_count
      · next hch =>
        split at hs
        · next hcl =>
          simp at hs
          subst hs
          constructor
          · exact h.cap_eq
          · exact h.links_eq
          · exact h.closed_done
          · exact h.errClosed_closed
          · intro _; exact ⟨hcl, hch⟩
          · exact h.errChNil_drained
          · intro _ hen
            have hen2 : s.errChNil = true := hen
            simp [hen2]
          · intro out hr
            cases hen : s.errChNil with
            | false => simp [hen] at hr
            | true =>
              simp [hen] at hr
              exact ⟨rfl, rfl, hr.symm⟩
          · intro out e hr
            cases hen : s.errChNil with
            | false => simp [hen] at hr
            | true => simp [hen] at hr
          · have := h.err_hist
            rw [hret] at this
            cases hen : s.errChNil with
            | false => simpa [hen, receivedErrs] using this
            | true => simpa [hen, receivedErrs] using this
          · exact h.ch_hist
          · exact h.rep_unit
          · exact h.done_rep
          · exact h.rep_nodup
          · exact h.rep_count
        · simp at hs
    · simp at hs
  | recvErrCh =>
    simp only [step] at hs
    split at hs
    · next hc =>
      obtain ⟨hp, hret, hnn⟩ := hc
      split at hs
      · next err rest hch =>
        simp at hs
        subst hs
        constructor
        · exact h.cap_eq
        · exact h.links_eq
        · exact h.closed_done
        · exact h.errClosed_closed
        · exact h.chNil_drained
        · intro hc2; simp [hnn] at hc2
        · intro _ _; simp
        · intro out hr; simp at hr
        · intro out e hr
          simp at hr
          exact hr.1
        · have := h.err_hist
          rw [hret] at this
          simpa [receivedErrs, hch] using this
        · exact h.ch_hist
        · exact h.rep_unit
        · exact h.done_rep
        · exact h.rep_nodup
        · exact h.rep_count
      · next hch =>
        split at hs
        · next hcl =>
          simp at hs
          subst hs
          constructor
          · exact h.cap_eq
          · exact h.links_eq
          · exact h.closed_done
          · exact h.errClosed_closed
          · exact h.chNil_drained
          · intro _; exact ⟨hcl, hch⟩
          · intro hcn _
            have hcn2 : s.chNil = true := hcn
            simp [hcn2]
          · intro out hr
            cases hcn : s.chNil with
            | false => simp [hcn] at hr
            | true =>
              simp [hcn] at hr
              exact ⟨rfl, rfl, hr.symm⟩
          · intro out e hr
            cases hcn : s.chNil with
            | false => simp [hcn] at hr
            | true => simp [hcn] at hr
          · have := h.err_hist
            rw [hret] at this
            cases hcn : s.chNil with
            | false => simpa [hcn, receivedErrs] using this
            | true => simpa [hcn, receivedErrs] using this
          · exact h.ch_hist
          · exact h.rep_unit
          · exact h.done_rep
          · exact h.rep_nodup
          · exact h.rep_count
        · simp at hs
    · simp at hs

/-- Every state reached by a schedule satisfies the invariant. -/
theorem inv_run {σ : Type} (bl : BusinessLogic σ) (links : List String)
    (sched : List Action) :
    ∀ (s s2 : AsyncState σ), Inv links s → run bl sched s = some s2 → Inv links s2 := by
  induction sched with
  | nil =>
    intro s s2 h hr
    simp [run] at hr
    subst hr
    exact h
  | cons a rest ih =>
    intro s s2 h hr
    simp only [run] at hr
    cases hs : step bl a s with
    | none => simp [hs] at hr
    | some s1 =>
      simp [hs] at hr
      exact ih s1 s2 (inv_step bl links a s s1 h hs) hr

/-- A schedule is no longer than the measure it consumes. -/
theorem run_measure {σ : Type} (bl : BusinessLogic σ) (sched : List Action) :
    ∀ (s s2 : AsyncState σ), run bl sched s = some s2 →
      sched.length + s2.measure ≤ s.measure := by
  induction sched with
  | nil =>
    intro s s2 hr
    simp [run] at hr
    subst hr
    simp
  | cons a rest ih =>
    intro s s2 hr
    simp only [run] at hr
    cases hs : step bl a s with
    | none => simp [hs] at hr
    | some s1 =>
      simp [hs] at hr
      have h1 := step_measure bl a s s1 hs
      have h2 := ih s1 s2 hr
      simp only [List.length_cons]
      omega

/-- The buffer of `errCh` holds no more values than reports were made, as long as
the coordinator has not returned. -/
theorem errCh_le_reports {σ : Type} (links : List String) (s : AsyncState σ)
    (h : Inv links s) (hret : s.returned = none) : s.errCh.length ≤ s.reports.length := by
  have h1 := h.err_hist
  rw [hret] at h1
  simp only [receivedErrs, List.nil_append] at h1
  rw [← h1]
  exact List.length_filterMap_le _ _

/-- The buffer of `ch` holds no more values than reports were made. -/
theorem ch_le_reports {σ : Type} (links : List String) (s : AsyncState σ)
    (h : Inv links s) : s.ch.length ≤ s.reports.length := by
  have h1 := h.ch_hist
  have h2 := List.length_filterMap_le Report.onCh s.reports
  rw [h1] at h2
  simp only [List.length_append] at h2
  omega

/-- While a goroutine is not done, fewer reports were made than the capacity of
the channels. -/
theorem reports_lt_cap {σ : Type} (links : List String) (s : AsyncState σ) (i : Nat)
    (u : GoUnit) (hu : s.units[i]? = some u) (hnd : u.isDone = false) (h : Inv links s) :
    s.reports.length < s.cap := by
  have h1 := sum_doneBit_lt s.units i u hu hnd
  have h2 := h.rep_count
  have h3 := congrArg List.length h.links_eq
  simp only [List.length_append, List.length_map] at h3
  have h4 := h.cap_eq
  omega

/-- As long as `processAsync` has not returned, some thread can move: there is no
deadlock. -/
theorem progress {σ : Type} (bl : BusinessLogic σ) (links : List String) (s : AsyncState σ)
    (h : Inv links s) (hret : s.returned = none) : ∃ a s2, step bl a s = some s2 := by
  cases hp : s.pending with
  | cons link rest =>
    refine ⟨Action.spawn, ?_⟩
    simp [step, hp]
  | nil =>
    by_cases hall : s.units.all GoUnit.isDone = true
    · cases hcl : s.chClosed with
      | false =>
        refine ⟨Action.closeCh, ?_⟩
        simp only [step, hp, hall, hcl, and_self, if_true]
        simp
      | true =>
        cases hecl : s.errChClosed with
        | false =>
          refine ⟨Action.closeErrCh, ?_⟩
          simp [step, hcl, hecl]
        | true =>
          cases hcn : s.chNil with
          | false =>
            refine ⟨Action.recvCh, ?_⟩
            cases hch : s.ch with
            | nil => simp [step, hp, hret, hcn, hch, hcl]
            | cons photo rest => simp [step, hp, hret, hcn, hch]
          | true =>
            cases hen : s.errChNil with
            | false =>
              refine ⟨Action.recvErrCh, ?_⟩
              cases hch : s.errCh with
              | nil => simp [step, hp, hret, hen, hch, hecl]
              | cons err rest => simp [step, hp, hret, hen, hch]
            | true => exact absurd hret (h.both_nil hcn hen)
    · have hex : ∃ u ∈ s.units, u.isDone = false := by
        by_contra hcon
        apply hall
        rw [List.all_eq_true]
        intro x hx
        cases hd : x.isDone with
        | true => rfl
        | false => exact absurd ⟨x, hx, hd⟩ hcon
      obtain ⟨u, hmem, hnd⟩ := hex
      obtain ⟨i, hu⟩ := List.mem_iff_getElem?.mp hmem
      have hroom := reports_lt_cap links s i u hu hnd h
      have hch := ch_le_reports links s h
      have herr := errCh_le_reports links s h hret
      have hnc := open_of_running links s i u hu hnd h
      have hne := errOpen_of_running links s i u hu hnd h
      refine ⟨Action.unit i, ?_⟩
      simp only [step, hu]
      cases hpc : u.pc with
      | lookup => simp [stepUnit, hpc]
      | fetch => simp [stepUnit, hpc]
      | insert p => simp [stepUnit, hpc]
      | send p e =>
        cases e with
        | none =>
          have : s.ch.length < s.cap := by omega
          simp [stepUnit, hpc, this, hnc]
        | some e =>
          have : s.errCh.length < s.cap := by omega
          simp [stepUnit, hpc, this, hne]
      | done p e => simp [GoUnit.isDone, hpc] at hnd

/-- The first report that carries an error carries the first error sent. -/
theorem find_first_err (reports : List Report) :
    ∀ (e : Error) (t : List Error), reports.filterMap (fun r => r.err) = e :: t →
      ∃ i photo, reports.find? (fun r => r.err.isSome) = some ⟨i, photo, some e⟩ := by
  induction reports with
  | nil => intro e t h; simp at h
  | cons r rest ih =>
    intro e t h
    obtain ⟨i, photo, err⟩ := r
    cases err with
    | none =>
      simp [List.filterMap_cons] at h
      obtain ⟨j, p, hj⟩ := ih e t h
      exact ⟨j, p, by simp [List.find?_cons, hj]⟩
    | some e2 =>
      simp [List.filterMap_cons] at h
      refine ⟨i, photo, ?_⟩
      simp [List.find?_cons, h.1]

/-- A list read off through the positions `0, 1, ...` of its entries. -/
theorem map_eq_map_range {α β : Type} (l : List α) (f : α → β) (d : β) :
    l.map f = (List.range l.length).map (fun i => (l[i]?.map f).getD d) := by
  apply List.ext_getElem
  · simp
  · intro n h1 h2
    simp at h1
    simp [h1]

/-! ## Concurrent mode: claims C9 and C10 -/

/-- A goroutine that runs its three collaborator steps without interruption
computes what `getPhotoOrFetch` computes: the step-wise resolver of the concurrent
model is the resolver of the sequential one. -/
theorem resolveStep_getPhotoOrFetch {σ : Type} (bl : BusinessLogic σ) (link : String) (w : σ) :
    (resolveStep bl link
        (resolveStep bl link (resolveStep bl link UnitPc.lookup w).1
          (resolveStep bl link UnitPc.lookup w).2.1).1
        (resolveStep bl link (resolveStep bl link UnitPc.lookup w).1
          (resolveStep bl link UnitPc.lookup w).2.1).2.1).1
      = UnitPc.send (getPhotoOrFetch bl link w).photo (getPhotoOrFetch bl link w).err
    ∧ (resolveStep bl link
        (resolveStep bl link (resolveStep bl link UnitPc.lookup w).1
          (resolveStep bl link UnitPc.lookup w).2.1).1
        (resolveStep bl link (resolveStep bl link UnitPc.lookup w).1
          (resolveStep bl link UnitPc.lookup w).2.1).2.1).2.1
      = (getPhotoOrFetch bl link w).world
    ∧ (resolveStep bl link UnitPc.lookup w).2.2
        ++ (resolveStep bl link (resolveStep bl link UnitPc.lookup w).1
          (resolveStep bl link UnitPc.lookup w).2.1).2.2
        ++ (resolveStep bl link
          (resolveStep bl link (resolveStep bl link UnitPc.lookup w).1
            (resolveStep bl link UnitPc.lookup w).2.1).1
          (resolveStep bl link (resolveStep bl link UnitPc.lookup w).1
            (resolveStep bl link UnitPc.lookup w).2.1).2.1).2.2
      = (getPhotoOrFetch bl link w).calls := by
  cases h1 : (bl.Sqlite.GetPhotoByUrl link w).1.2 with
  | some e => simp [resolveStep, getPhotoOrFetch, h1]
  | none =>
    cases h2 : (bl.Sqlite.GetPhotoByUrl link w).1.1 with
    | some p => simp [resolveStep, getPhotoOrFetch, h1, h2]
    | none =>
      cases h3 : (bl.YouTubeService.FetchThumbnail link (bl.Sqlite.GetPhotoByUrl link w).2).1.2 with
      | some e => simp [resolveStep, getPhotoOrFetch, h1, h2, h3]
      | none => simp [resolveStep, getPhotoOrFetch, h1, h2, h3]

/-- C9. In concurrent mode, for every list of keys and every interleaving (every
schedule that the transition system of `processAsync` can run): the call cannot
get stuck before it returns and every run is finite, so it returns; and whenever
it has returned while some goroutine's resolution has failed, it has returned the
nil blob list (whatever had been collected in `photos`) together with a non-nil
error, which is the error of the first report, in the order of the sends, that
carries an error, made by a goroutine whose resolution failed with that error. -/
theorem processAsync_first_error {σ : Type} (bl : BusinessLogic σ) (links : List String)
    (sched : List Action) (w : σ) (s : AsyncState σ)
    (hrun : run bl sched (AsyncState.init links w) = some s) :
    processAsync bl links sched w = s.returned
      ∧ sched.length ≤ 6 * links.length + 4
      ∧ (s.returned = none → ∃ a s2, step bl a s = some s2)
      ∧ ∀ r, s.returned = some r → (∃ u ∈ s.units, u.failed = true) →
          r.1 = [] ∧ ∃ e i photo u, r.2 = some e
            ∧ s.reports.find? (fun rep => rep.err.isSome) = some ⟨i, photo, some e⟩
            ∧ s.units[i]? = some u ∧ u.pc = UnitPc.done photo (some e) := by
  have h := inv_run bl links sched _ s (inv_init links w) hrun
  refine ⟨by simp [processAsync, hrun], ?_, progress bl links s h, ?_⟩
  · have := run_measure bl sched _ s hrun
    simp [AsyncState.measure, AsyncState.init] at this
    omega
  · intro r hr hfail
    obtain ⟨out, err⟩ := r
    cases err with
    | none =>
      exfalso
      obtain ⟨hcn, hen, _⟩ := h.ret_ok out hr
      obtain ⟨hecl, herr⟩ := h.errChNil_drained hen
      have hall := (h.closed_done (h.errClosed_closed hecl)).2
      have hhist := h.err_hist
      rw [hr, herr] at hhist
      simp only [receivedErrs, List.append_nil] at hhist
      obtain ⟨u, hmem, hf⟩ := hfail
      obtain ⟨i, hu⟩ := List.mem_iff_getElem?.mp hmem
      have hin := h.done_rep i u hu (hall u hmem)
      obtain ⟨rep, hrep, hidx⟩ := List.mem_map.mp hin
      obtain ⟨u2, hu2, hpc2⟩ := h.rep_unit rep hrep
      rw [hidx, hu] at hu2
      simp at hu2
      subst hu2
      cases he : rep.err with
      | none => simp [GoUnit.failed, hpc2, he] at hf
      | some e =>
        have : e ∈ s.reports.filterMap (fun r => r.err) :=
          List.mem_filterMap.mpr ⟨rep, hrep, he⟩
        rw [hhist] at this
        simp at this
    | some e =>
      have hout := h.ret_err out e hr
      have hhist := h.err_hist
      rw [hr] at hhist
      simp only [receivedErrs, List.singleton_append] at hhist
      obtain ⟨i, photo, hfind⟩ := find_first_err s.reports e s.errCh hhist
      obtain ⟨u, hu, hpc⟩ := h.rep_unit _ (List.mem_of_find?_eq_some hfind)
      exact ⟨hout, e, i, photo, u, rfl, hfind, hu, hpc⟩

/-- The batch `[k1, k2, k3]` under `errSchedule`: the blob of `k1` had been
collected, `k3` fails, and the call returns the nil list with the error of `k3`,
the first report that carries an error. -/
theorem processAsync_first_error_witness :
    processAsync (sqliteLogic mixedFetch) ["k1", "k2", "k3"] errSchedule (oneRowDb, 0)
        = some ([], some "unsupported URL format")
      ∧ errFinal.photos = [some [1, 2, 3]]
      ∧ (([] : List Bytes) = [] ∧ ∃ e i photo u, some "unsupported URL format" = some e
          ∧ errFinal.reports.find? (fun rep => rep.err.isSome) = some ⟨i, photo, some e⟩
          ∧ errFinal.units[i]? = some u ∧ u.pc = UnitPc.done photo (some e)) :=
  ⟨(processAsync_first_error (sqliteLogic mixedFetch) ["k1", "k2", "k3"] errSchedule
      (oneRowDb, 0) errFinal rfl).1,
    rfl,
    (processAsync_first_error (sqliteLogic mixedFetch) ["k1", "k2", "k3"] errSchedule
      (oneRowDb, 0) errFinal rfl).2.2.2 ([], some "unsupported URL format") rfl
      ⟨⟨"k3", UnitPc.done none (some "unsupported URL format")⟩, by decide, rfl⟩⟩

/-- C10. In concurrent mode, for every list of keys and every interleaving: the
call cannot get stuck before it returns and every run is finite, so it returns;
and whenever it has returned while no goroutine's resolution has failed, it has
returned a nil error and an output with exactly `len(keys)` entries; every
goroutine is done, the goroutines are those of the keys in input order, the
output is a permutation of the blobs their resolutions returned, and its entries
stand in the order of the reports, that is in the order of completion. -/
theorem processAsync_all_succeed {σ : Type} (bl : BusinessLogic σ) (links : List String)
    (sched : List Action) (w : σ) (s : AsyncState σ)
    (hrun : run bl sched (AsyncState.init links w) = some s) :
    processAsync bl links sched w = s.returned
      ∧ sched.length ≤ 6 * links.length + 4
      ∧ (s.returned = none → ∃ a s2, step bl a s = some s2)
      ∧ ∀ r, s.returned = some r → (∀ u ∈ s.units, u.failed = false) →
          r.2 = none ∧ r.1.length = links.length
            ∧ s.units.map GoUnit.link = links
            ∧ (∀ u ∈ s.units, u.isDone = true)
            ∧ List.Perm r.1 (s.units.map GoUnit.photo)
            ∧ r.1 = s.reports.map (fun rep => rep.photo)
            ∧ ∀ rep ∈ s.reports, ∃ u, s.units[rep.index]? = some u
                ∧ u.pc = UnitPc.done rep.photo none := by
  have h := inv_run bl links sched _ s (inv_init links w) hrun
  refine ⟨by simp [processAsync, hrun], ?_, progress bl links s h, ?_⟩
  · have := run_measure bl sched _ s hrun
    simp [AsyncState.measure, AsyncState.init] at this
    omega
  · intro r hr hnofail
    obtain ⟨out, err⟩ := r
    cases err with
    | some e =>
      exfalso
      have hhist := h.err_hist
      rw [hr] at hhist
      simp only [receivedErrs, List.singleton_append] at hhist
      have hmem : e ∈ s.reports.filterMap (fun r => r.err) := by rw [hhist]; simp
      obtain ⟨rep, hrep, he⟩ := List.mem_filterMap.mp hmem
      obtain ⟨u, hu, hpc⟩ := h.rep_unit rep hrep
      have := hnofail u (mem_of_getElem? _ _ _ hu)
      simp [GoUnit.failed, hpc, he] at this
    | none =>
      obtain ⟨hcn, hen, hout⟩ := h.ret_ok out hr
      obtain ⟨hcl, hch⟩ := h.chNil_drained hcn
      obtain ⟨hpend, hall⟩ := h.closed_done hcl
      have hlinks : s.units.map GoUnit.link = links := by
        have := h.links_eq
        simpa [hpend] using this
      have hrepok : ∀ rep ∈ s.reports, ∃ u, s.units[rep.index]? = some u
          ∧ u.pc = UnitPc.done rep.photo none := by
        intro rep hrep
        obtain ⟨u, hu, hpc⟩ := h.rep_unit rep hrep
        refine ⟨u, hu, ?_⟩
        have := hnofail u (mem_of_getElem? _ _ _ hu)
        cases he : rep.err with
        | none => rw [hpc, he]
        | some e => simp [GoUnit.failed, hpc, he] at this
      have hphotos : out = s.reports.map (fun rep => rep.photo) := by
        have hh := h.ch_hist
        rw [hch, List.append_nil] at hh
        rw [hout, ← hh]
        clear hh
        have : ∀ rep ∈ s.reports, Report.onCh rep = some rep.photo := by
          intro rep hrep
          obtain ⟨u, hu, hpc⟩ := h.rep_unit rep hrep
          obtain ⟨u2, hu2, hpc2⟩ := hrepok rep hrep
          rw [hu] at hu2
          simp at hu2
          subst hu2
          rw [hpc] at hpc2
          simp at hpc2
          simp [Report.onCh, hpc2]
        generalize s.reports = reps at this
        induction reps with
        | nil => simp
        | cons a t ih =>
          simp only [List.filterMap_cons, List.map_cons]
          rw [this a (by simp)]
          simp only
          rw [ih (fun rep hrep => this rep (by simp [hrep]))]
      have hperm : (s.reports.map (fun rep => rep.index)).Perm (List.range s.units.length) := by
        rw [List.perm_ext_iff_of_nodup h.rep_nodup (List.nodup_range _)]
        intro i
        constructor
        · intro hi
          obtain ⟨rep, hrep, hidx⟩ := List.mem_map.mp hi
          obtain ⟨u, hu, _⟩ := h.rep_unit rep hrep
          rw [hidx] at hu
          exact List.mem_range.mpr (lt_of_getElem? _ _ _ hu)
        · intro hi
          have hlt := List.mem_range.mp hi
          have hu : s.units[i]? = some s.units[i] := List.getElem?_eq_getElem hlt
          exact h.done_rep i _ hu (hall _ (mem_of_getElem? _ _ _ hu))
      have hvals : s.reports.map (fun rep => rep.photo)
          = (s.reports.map (fun rep => rep.index)).map
              (fun i => (s.units[i]?.map GoUnit.photo).getD none) := by
        rw [List.map_map]
        apply List.map_congr_left
        intro rep hrep
        obtain ⟨u, hu, hpc⟩ := hrepok rep hrep
        simp [hu, GoUnit.photo, hpc]
      have hP : List.Perm out (s.units.map GoUnit.photo) := by
        rw [hphotos, hvals, map_eq_map_range s.units GoUnit.photo none]
        exact hperm.map _
      refine ⟨rfl, ?_, hlinks, hall, hP, hphotos, hrepok⟩
      have := hP.length_eq
      rw [this, List.length_map, ← hlinks, List.length_map]

/-- The batch `[k1, k2]` under `okSchedule`: both resolutions succeed, `k2`
completes first, and the call returns both blobs in the order of completion,
which is not the input order. -/
theorem processAsync_all_succeed_witness :
    processAsync (sqliteLogic mixedFetch) ["k1", "k2"] okSchedule (oneRowDb, 0)
        = some ([some [7, 8], some [1, 2, 3]], none)
      ∧ okFinal.units.map GoUnit.photo = [some [1, 2, 3], some [7, 8]]
      ∧ ((none : Option Error) = none
          ∧ [some [7, 8], some [1, 2, 3]].length = ["k1", "k2"].length
          ∧ okFinal.units.map GoUnit.link = ["k1", "k2"]
          ∧ (∀ u ∈ okFinal.units, u.isDone = true)
          ∧ List.Perm [some [7, 8], some [1, 2, 3]] (okFinal.units.map GoUnit.photo)
          ∧ [some [7, 8], some [1, 2, 3]] = okFinal.reports.map (fun rep => rep.photo)
          ∧ ∀ rep ∈ okFinal.reports, ∃ u, okFinal.units[rep.index]? = some u
              ∧ u.pc = UnitPc.done rep.photo none) :=
  ⟨(processAsync_all_succeed (sqliteLogic mixedFetch) ["k1", "k2"] okSchedule
      (oneRowDb, 0) okFinal rfl).1,
    rfl,
    (processAsync_all_succeed (sqliteLogic mixedFetch) ["k1", "k2"] okSchedule
      (oneRowDb, 0) okFinal rfl).2.2.2 ([some [7, 8], some [1, 2, 3]], none) rfl
      (by decide)⟩

/-! ## Concurrent mode: claims C11 and C20 -/

/-- No more goroutines are done than were spawned. -/
theorem sum_doneBit_le (units : List GoUnit) : (units.map doneBit).sum ≤ units.length := by
  induction units with
  | nil => simp
  | cons b t ih =>
    simp only [List.map_cons, List.sum_cons, List.length_cons]
    have : doneBit b ≤ 1 := by unfold doneBit; split <;> omega
    omega

/-- No more reports were made than the capacity of the channels. -/
theorem reports_le_cap {σ : Type} (links : List String) (s : AsyncState σ) (h : Inv links s) :
    s.reports.length ≤ s.cap := by
  have h1 := sum_doneBit_le s.units
  have h2 := h.rep_count
  have h3 := congrArg List.length h.links_eq
  simp only [List.length_append, List.length_map] at h3
  have h4 := h.cap_eq
  omega

/-- The buffer of `errCh` holds no more values than reports were made, also after
the coordinator has returned. -/
theorem errCh_le_reports_always {σ : Type} (links : List String) (s : AsyncState σ)
    (h : Inv links s) : s.errCh.length ≤ s.reports.length := by
  have h1 := congrArg List.length h.err_hist
  have h2 := List.length_filterMap_le (fun r : Report => r.err) s.reports
  simp only [List.length_append] at h1
  omega

/-- A goroutine that is not done can always take its next step: its send finds
room in an open channel, whatever the coordinator has done. -/
theorem unit_can_step {σ : Type} (bl : BusinessLogic σ) (links : List String)
    (s : AsyncState σ) (h : Inv links s) (i : Nat) (u : GoUnit)
    (hu : s.units[i]? = some u) (hnd : u.isDone = false) :
    ∃ s2, step bl (Action.unit i) s = some s2 ∧ s2.returned = s.returned
      ∧ s2.pending = s.pending := by
  have hroom := reports_lt_cap links s i u hu hnd h
  have hch := ch_le_reports links s h
  have herr := errCh_le_reports_always links s h
  have hnc := open_of_running links s i u hu hnd h
  have hne := errOpen_of_running links s i u hu hnd h
  simp only [step, hu]
  cases hpc : u.pc with
  | lookup => simp [stepUnit, hpc]
  | fetch => simp [stepUnit, hpc]
  | insert p => simp [stepUnit, hpc]
  | send p e =>
    cases e with
    | none =>
      have : s.ch.length < s.cap := by omega
      simp [stepUnit, hpc, this, hnc]
    | some e =>
      have : s.errCh.length < s.cap := by omega
      simp [stepUnit, hpc, this, hne]
  | done p e => simp [GoUnit.isDone, hpc] at hnd

/-- From every state that satisfies the invariant the goroutines can be run to
completion: some continuation of the schedule spawns what is pending and leaves
every goroutine done, without changing what the coordinator has returned. -/
theorem units_complete {σ : Type} (bl : BusinessLogic σ) (links : List String) :
    ∀ (n : Nat) (s : AsyncState σ), Inv links s → s.measure ≤ n →
      ∃ tail s2, run bl tail s = some s2 ∧ s2.pending = []
        ∧ (∀ u ∈ s2.units, u.isDone = true) ∧ s2.returned = s.returned := by
  intro n
  induction n with
  | zero =>
    intro s h hm
    have hstuck : ∀ a s2, step bl a s ≠ some s2 := by
      intro a s2 hs
      have := step_measure bl a s s2 hs
      omega
    refine ⟨[], s, rfl, ?_, ?_, rfl⟩
    · cases hp : s.pending with
      | nil => rfl
      | cons link rest =>
        exfalso
        have hs : step bl Action.spawn s
            = some { s with pending := rest, units := s.units ++ [⟨link, UnitPc.lookup⟩] } := by
          simp only [step, hp]
        exact hstuck Action.spawn _ hs
    · intro u hmem
      cases hd : u.isDone with
      | true => rfl
      | false =>
        exfalso
        obtain ⟨i, hu⟩ := List.mem_iff_getElem?.mp hmem
        obtain ⟨s2, hs, _⟩ := unit_can_step bl links s h i u hu hd
        exact hstuck _ _ hs
  | succ n ih =>
    intro s h hm
    cases hp : s.pending with
    | cons link rest =>
      have hs : step bl Action.spawn s
          = some { s with pending := rest, units := s.units ++ [⟨link, UnitPc.lookup⟩] } := by
        simp only [step, hp]
      have hlt := step_measure bl _ s _ hs
      obtain ⟨tail, s3, hr, h1, h2, h3⟩ := ih _ (inv_step bl links _ s _ h hs) (by omega)
      exact ⟨Action.spawn :: tail, s3, by simp [run, hs, hr], h1, h2, h3⟩
    | nil =>
      by_cases hall : ∀ u ∈ s.units, u.isDone = true
      · exact ⟨[], s, rfl, hp, hall, rfl⟩
      · have hex : ∃ u ∈ s.units, u.isDone = false := by
          by_contra hcon
          apply hall
          intro x hx
          cases hd : x.isDone with
          | true => rfl
          | false => exact absurd ⟨x, hx, hd⟩ hcon
        obtain ⟨u, hmem, hnd⟩ := hex
        obtain ⟨i, hu⟩ := List.mem_iff_getElem?.mp hmem
        obtain ⟨s2, hs, hret, _⟩ := unit_can_step bl links s h i u hu hnd
        have hlt := step_measure bl _ s _ hs
        obtain ⟨tail, s3, hr, h1, h2, h3⟩ := ih _ (inv_step bl links _ s _ h hs) (by omega)
        exact ⟨Action.unit i :: tail, s3, by simp [run, hs, hr], h1, h2, by rw [h3, hret]⟩

/-- C11, as stated, fails: under `errSchedule` the coordinator has returned the
error of `k3` while the goroutine of `k2` has not even started its lookup, so
`processAsync` does return while a spawned unit has not finished. -/
theorem processAsync_returns_before_stragglers :
    run (sqliteLogic mixedFetch) errSchedule (AsyncState.init ["k1", "k2", "k3"] (oneRowDb, 0))
        = some errFinal
      ∧ ¬ (errFinal.returned ≠ none → ∀ u ∈ errFinal.units, u.isDone = true) :=
  ⟨rfl, by decide⟩

/-- C11, amended. In concurrent mode, for every list of keys and every
interleaving: the coordinator waits for every spawned unit only on the path
without error (when it has returned a nil error, nothing is pending and every
unit is done); when an error is buffered on `errCh` the coordinator can take it
and return `(nil, error)` at once, whatever the other units are doing; sibling
units are not cancelled: a unit that is not done can always take its next step,
which leaves the returned value as it is, and from every reachable state the
units can be run to completion. -/
theorem processAsync_returns_without_waiting {σ : Type} (bl : BusinessLogic σ)
    (links : List String) (sched : List Action) (w : σ) (s : AsyncState σ)
    (hrun : run bl sched (AsyncState.init links w) = some s) :
    (∀ out, s.returned = some (out, none) → s.pending = [] ∧ ∀ u ∈ s.units, u.isDone = true)
      ∧ (∀ e rest, s.pending = [] → s.returned = none → s.errCh = e :: rest →
          ∃ s2, step bl Action.recvErrCh s = some s2 ∧ s2.returned = some ([], some e)
            ∧ s2.units = s.units)
      ∧ (∀ i u, s.units[i]? = some u → u.isDone = false →
          ∃ s2, step bl (Action.unit i) s = some s2 ∧ s2.returned = s.returned)
      ∧ ∃ tail s2, run bl tail s = some s2 ∧ s2.pending = []
          ∧ (∀ u ∈ s2.units, u.isDone = true) ∧ s2.returned = s.returned := by
  have h := inv_run bl links sched _ s (inv_init links w) hrun
  refine ⟨?_, ?_, ?_, units_complete bl links s.measure s h (Nat.le_refl _)⟩
  · intro out hr
    obtain ⟨hcn, _, _⟩ := h.ret_ok out hr
    exact h.closed_done (h.chNil_drained hcn).1
  · intro e rest hp hret hch
    have hnn : s.errChNil = false := by
      cases hc : s.errChNil with
      | false => rfl
      | true => have := (h.errChNil_drained hc).2; simp [hch] at this
    simp [step, hp, hret, hnn, hch]
  · intro i u hu hnd
    obtain ⟨s2, hs, hret, _⟩ := unit_can_step bl links s h i u hu hnd
    exact ⟨s2, hs, hret⟩

/-- The state reached by `errSchedule`: the coordinator has returned the error,
and the goroutine of `k2`, which has not started, can still take its step. -/
theorem processAsync_returns_without_waiting_witness :
    errFinal.returned = some ([], some "unsupported URL format")
      ∧ ∃ s2, step (sqliteLogic mixedFetch) (Action.unit 1) errFinal = some s2
          ∧ s2.returned = errFinal.returned :=
  ⟨rfl,
    (processAsync_returns_without_waiting (sqliteLogic mixedFetch) ["k1", "k2", "k3"]
      errSchedule (oneRowDb, 0) errFinal rfl).2.2.1 1 ⟨"k2", UnitPc.lookup⟩ rfl rfl⟩

/-- C12, as stated, fails in its last part: on the store whose row for `k` holds a
NULL photo the key has an entry, yet the lookup answers the nil slice and
`getPhotoOrFetch` fetches. -/
theorem getPhotoOrFetch_null_row_fetches :
    ¬ (fetchCount (getPhotoOrFetch (sqliteLogic okFetch) "k" (nullRowDb, 0)).calls ≠ 0 →
        ∀ row ∈ nullRowDb.rows, row.url ≠ "k") := by
  decide

/-- C12, amended. On the SQLite store `getPhotoOrFetch` distinguishes a cached
zero-length blob from an absent one: for every key whose store entry (the first
row that the query finds for it) is a blob of zero bytes, it returns that
zero-length blob with a nil error as a cache hit, with no `FetchThumbnail` call;
and a fetch is triggered exactly when the lookup runs without error and finds
either no row for the key or a row whose photo is NULL. -/
theorem getPhotoOrFetch_zero_length_hit {ν : Type}
    (fetch : String → ν → (Bytes × Option Error) × ν) (key : String) (db : SQLiteDatabase)
    (n : ν) :
    (∀ row, db.getErr = none → db.rows.find? (fun r => r.url == key) = some row →
        row.photo = some [] →
        (getPhotoOrFetch (sqliteLogic fetch) key (db, n)).photo = some []
          ∧ (getPhotoOrFetch (sqliteLogic fetch) key (db, n)).err = none
          ∧ fetchCount (getPhotoOrFetch (sqliteLogic fetch) key (db, n)).calls = 0)
      ∧ (fetchCount (getPhotoOrFetch (sqliteLogic fetch) key (db, n)).calls ≠ 0 ↔
          db.getErr = none
            ∧ (db.rows.find? (fun r => r.url == key) = none
              ∨ ∃ row, db.rows.find? (fun r => r.url == key) = some row ∧ row.photo = none)) := by
  obtain ⟨rows, execErr, getErr⟩ := db
  constructor
  · intro row hget hfind hp
    simp only at hget hfind
    subst hget
    simp [getPhotoOrFetch, sqliteLogic, SQLiteDatabase.GetPhotoByUrl, hfind, hp, fetchCount,
      Call.isFetch]
  · cases getErr with
    | some e =>
      simp [getPhotoOrFetch, sqliteLogic, SQLiteDatabase.GetPhotoByUrl, fetchCount,
        Call.isFetch]
    | none =>
      cases hfind : rows.find? (fun r => r.url == key) with
      | none =>
        simp only [getPhotoOrFetch, sqliteLogic, SQLiteDatabase.GetPhotoByUrl, hfind,
          fetchCount]
        split <;> simp [Call.isFetch]
      | some row =>
        cases hp : row.photo with
        | some p =>
          simp [getPhotoOrFetch, sqliteLogic, SQLiteDatabase.GetPhotoByUrl, hfind, hp,
            fetchCount, Call.isFetch]
        | none =>
          simp only [getPhotoOrFetch, sqliteLogic, SQLiteDatabase.GetPhotoByUrl, hfind, hp,
            fetchCount]
          split <;> simp [Call.isFetch, hp]

/-- The resolver on the store whose row for `k` holds a blob of zero bytes: the
zero-length blob is served from the store and the fetcher is not called. -/
theorem getPhotoOrFetch_zero_length_hit_witness :
    (getPhotoOrFetch (sqliteLogic okFetch) "k" (zeroBlobDb, 0)).photo = some []
      ∧ (getPhotoOrFetch (sqliteLogic okFetch) "k" (zeroBlobDb, 0)).err = none
      ∧ fetchCount (getPhotoOrFetch (sqliteLogic okFetch) "k" (zeroBlobDb, 0)).calls = 0 :=
  (getPhotoOrFetch_zero_length_hit okFetch "k" zeroBlobDb 0).1 ⟨1, "k", some []⟩
    (by decide) (by decide) (by decide)

/-- C13. The resolver is write-once on the store. For every `BusinessLogic`:
`getPhotoOrFetch` calls `InsertResource` only after a cache miss followed by a
successful fetch, then exactly once and with exactly the key and the fetched
blob, and the world it leaves is the one that this call of `InsertResource`
leaves; in every other case it leaves the world of its last call, the lookup or
the fetch, and `InsertResource` has not acted. On the SQLite store: after a miss
(the lookup runs and finds no row, or a NULL photo) and a successful fetch, on a
store that executes writes, the table is the old rows, in place, followed by
exactly one new row for the key and the fetched blob; in every other case, among
them a hit, a lookup error and a fetch error, the store is left as it was; the
driver flags are never touched. -/
theorem getPhotoOrFetch_write_once {σ ν : Type} (bl : BusinessLogic σ) (key : String) (w : σ)
    (fetch : String → ν → (Bytes × Option Error) × ν) (db : SQLiteDatabase) (n : ν) :
    (getPhotoOrFetch bl key w).calls.filter Call.isInsert
        = (if (bl.Sqlite.GetPhotoByUrl key w).1 = (none, none)
              ∧ (bl.YouTubeService.FetchThumbnail key (bl.Sqlite.GetPhotoByUrl key w).2).1.2
                = none
            then [Call.InsertResource key
              (bl.YouTubeService.FetchThumbnail key (bl.Sqlite.GetPhotoByUrl key w).2).1.1]
            else [])
      ∧ (getPhotoOrFetch bl key w).world
          = (if (bl.Sqlite.GetPhotoByUrl key w).1 = (none, none) then
              if (bl.YouTubeService.FetchThumbnail key (bl.Sqlite.GetPhotoByUrl key w).2).1.2
                  = none then
                (bl.Sqlite.InsertResource key
                  (bl.YouTubeService.FetchThumbnail key (bl.Sqlite.GetPhotoByUrl key w).2).1.1
                  (bl.YouTubeService.FetchThumbnail key (bl.Sqlite.GetPhotoByUrl key w).2).2).2
              else (bl.YouTubeService.FetchThumbnail key (bl.Sqlite.GetPhotoByUrl key w).2).2
            else (bl.Sqlite.GetPhotoByUrl key w).2)
      ∧ ((db.getErr = none
            ∧ (∀ row, db.rows.find? (fun r => r.url == key) = some row → row.photo = none)
            ∧ (fetch key n).1.2 = none ∧ db.execErr = none) →
          (getPhotoOrFetch (sqliteLogic fetch) key (db, n)).world.1.rows
              = db.rows ++ [⟨db.rows.length + 1, key, (fetch key n).1.1⟩]
            ∧ (getPhotoOrFetch (sqliteLogic fetch) key (db, n)).photo = (fetch key n).1.1
            ∧ (getPhotoOrFetch (sqliteLogic fetch) key (db, n)).err = none)
      ∧ (¬ (db.getErr = none
            ∧ (∀ row, db.rows.find? (fun r => r.url == key) = some row → row.photo = none)
            ∧ (fetch key n).1.2 = none ∧ db.execErr = none) →
          (getPhotoOrFetch (sqliteLogic fetch) key (db, n)).world.1 = db)
      ∧ ((getPhotoOrFetch (sqliteLogic fetch) key (db, n)).world.1.rows = db.rows
          ∨ ((getPhotoOrFetch (sqliteLogic fetch) key (db, n)).world.1.rows
                = db.rows ++ [⟨db.rows.length + 1, key,
                    (getPhotoOrFetch (sqliteLogic fetch) key (db, n)).photo⟩]
              ∧ (getPhotoOrFetch (sqliteLogic fetch) key (db, n)).err = none
              ∧ fetchCount (getPhotoOrFetch (sqliteLogic fetch) key (db, n)).calls = 1))
      ∧ (getPhotoOrFetch (sqliteLogic fetch) key (db, n)).world.1.execErr = db.execErr
      ∧ (getPhotoOrFetch (sqliteLogic fetch) key (db, n)).world.1.getErr = db.getErr
      ∧ (fetchCount (getPhotoOrFetch (sqliteLogic fetch) key (db, n)).calls = 0
            ∨ (getPhotoOrFetch (sqliteLogic fetch) key (db, n)).err ≠ none →
          (getPhotoOrFetch (sqliteLogic fetch) key (db, n)).world.1 = db) := by
  refine ⟨?_, ?_, ?_⟩
  · rcases hl : bl.Sqlite.GetPhotoByUrl key w with ⟨⟨photo, err⟩, w1⟩
    cases err with
    | some e => simp [getPhotoOrFetch, hl, Call.isInsert]
    | none =>
      cases photo with
      | some p => simp [getPhotoOrFetch, hl, Call.isInsert]
      | none =>
        rcases hf : bl.YouTubeService.FetchThumbnail key w1 with ⟨⟨b, ferr⟩, w2⟩
        cases ferr with
        | some e => simp [getPhotoOrFetch, hl, hf, Call.isInsert]
        | none => simp [getPhotoOrFetch, hl, hf, Call.isInsert]
  · rcases hl : bl.Sqlite.GetPhotoByUrl key w with ⟨⟨photo, err⟩, w1⟩
    cases err with
    | some e => simp [getPhotoOrFetch, hl]
    | none =>
      cases photo with
      | some p => simp [getPhotoOrFetch, hl]
      | none =>
        rcases hf : bl.YouTubeService.FetchThumbnail key w1 with ⟨⟨b, ferr⟩, w2⟩
        cases ferr with
        | some e => simp [getPhotoOrFetch, hl, hf]
        | none => simp [getPhotoOrFetch, hl, hf]
  · obtain ⟨rows, execErr, getErr⟩ := db
    cases getErr with
    | some e => simp [getPhotoOrFetch, sqliteLogic, SQLiteDatabase.GetPhotoByUrl]
    | none =>
      cases hfind : rows.find? (fun r => r.url == key) with
      | some row =>
        cases hp : row.photo with
        | some p =>
          simp [getPhotoOrFetch, sqliteLogic, SQLiteDatabase.GetPhotoByUrl, hfind, hp]
        | none =>
          rcases hf : fetch key n with ⟨⟨b, ferr⟩, n2⟩
          cases ferr with
          | some e =>
            simp [getPhotoOrFetch, sqliteLogic, SQLiteDatabase.GetPhotoByUrl, hfind, hp, hf]
          | none =>
            cases execErr with
            | some e =>
              simp [getPhotoOrFetch, sqliteLogic, SQLiteDatabase.GetPhotoByUrl,
                SQLiteDatabase.InsertResource, hfind, hp, hf, fetchCount, Call.isFetch]
            | none =>
              simp [getPhotoOrFetch, sqliteLogic, SQLiteDatabase.GetPhotoByUrl,
                SQLiteDatabase.InsertResource, hfind, hp, hf, fetchCount, Call.isFetch]
      | none =>
        rcases hf : fetch key n with ⟨⟨b, ferr⟩, n2⟩
        cases ferr with
        | some e =>
          simp [getPhotoOrFetch, sqliteLogic, SQLiteDatabase.GetPhotoByUrl, hfind, hf]
        | none =>
          cases execErr with
          | some e =>
            simp [getPhotoOrFetch, sqliteLogic, SQLiteDatabase.GetPhotoByUrl,
              SQLiteDatabase.InsertResource, hfind, hf, fetchCount, Call.isFetch]
          | none =>
            simp [getPhotoOrFetch, sqliteLogic, SQLiteDatabase.GetPhotoByUrl,
              SQLiteDatabase.InsertResource, hfind, hf, fetchCount, Call.isFetch]

/-- The resolver on the one-row store for the absent key `k2`: the table afterwards
is the old row followed by the one new row for `k2` and the fetched blob; and for
the cached key `k1` the store is left as it was. -/
theorem getPhotoOrFetch_write_once_witness :
    ((getPhotoOrFetch (sqliteLogic okFetch) "k2" (oneRowDb, 0)).world.1.rows
          = [⟨1, "k1", some [1, 2, 3]⟩, ⟨2, "k2", some [7, 8]⟩]
        ∧ (getPhotoOrFetch (sqliteLogic okFetch) "k2" (oneRowDb, 0)).photo = some [7, 8]
        ∧ (getPhotoOrFetch (sqliteLogic okFetch) "k2" (oneRowDb, 0)).err = none)
      ∧ (getPhotoOrFetch (sqliteLogic okFetch) "k1" (oneRowDb, 0)).world.1 = oneRowDb :=
  ⟨(getPhotoOrFetch_write_once (sqliteLogic okFetch) "k2" (oneRowDb, 0) okFetch oneRowDb
      0).2.2.1 ⟨rfl, by decide, rfl, rfl⟩,
    (getPhotoOrFetch_write_once (sqliteLogic okFetch) "k1" (oneRowDb, 0) okFetch oneRowDb
      0).2.2.2.1 (by decide)⟩

/-- C19. Store round trip. For every url and every non-empty photo, on a table
whose queries run and that holds no row for that url: after
`InsertResource(url, photo)` succeeds, `ResourceExists(url)` returns true and
`GetPhotoByUrl(url)` returns a non-empty blob equal to `photo`, both with a nil
error; and for every url with no row `GetPhotoByUrl` returns `(nil, nil)` and
`ResourceExists` returns false. -/
theorem store_round_trip (url : String) (photo : List Byte) (db : SQLiteDatabase)
    (nonEmpty : photo ≠ [])
    (queriesRun : db.getErr = none)
    (noRow : ∀ row ∈ db.rows, row.url ≠ url)
    (inserted : (SQLiteDatabase.InsertResource url (some photo) db).1 = none) :
    (SQLiteDatabase.ResourceExists url
        (SQLiteDatabase.InsertResource url (some photo) db).2).1 = (true, none)
      ∧ (SQLiteDatabase.GetPhotoByUrl url
          (SQLiteDatabase.InsertResource url (some photo) db).2).1 = (some photo, none)
      ∧ photo.length > 0
      ∧ ∀ url2, (∀ row ∈ db.rows, row.url ≠ url2) →
          (SQLiteDatabase.GetPhotoByUrl url2 db).1 = (none, none)
            ∧ (SQLiteDatabase.ResourceExists url2 db).1 = (false, none) := by
  obtain ⟨rows, execErr, getErr⟩ := db
  simp only at queriesRun noRow
  subst queriesRun
  have hfind : ∀ url2, (∀ row ∈ rows, row.url ≠ url2) →
      rows.find? (fun r => r.url == url2) = none := by
    intro url2 h
    rw [List.find?_eq_none]
    intro row hrow
    simpa using h row hrow
  have hfilter : ∀ url2, (∀ row ∈ rows, row.url ≠ url2) →
      rows.filter (fun r => r.url == url2) = [] := by
    intro url2 h
    rw [List.filter_eq_nil_iff]
    intro row hrow
    simpa using h row hrow
  cases execErr with
  | some e => simp [SQLiteDatabase.InsertResource] at inserted
  | none =>
    refine ⟨?_, ?_, List.length_pos.mpr nonEmpty, ?_⟩
    · simp [SQLiteDatabase.ResourceExists, SQLiteDatabase.InsertResource, List.filter_append,
        hfilter url noRow]
    · simp [SQLiteDatabase.GetPhotoByUrl, SQLiteDatabase.InsertResource, List.find?_append,
        hfind url noRow]
    · intro url2 h
      simp [SQLiteDatabase.GetPhotoByUrl, SQLiteDatabase.ResourceExists, hfind url2 h,
        hfilter url2 h]

/-- The round trip of `TestDatabaseOperations`: the photo `[1, 2, 3, 4]` inserted
for its url into the empty store is found again. -/
theorem store_round_trip_witness :
    (SQLiteDatabase.ResourceExists "https://www.example.com/image.jpg"
        (SQLiteDatabase.InsertResource "https://www.example.com/image.jpg"
          (some [1, 2, 3, 4]) emptyDb).2).1 = (true, none)
      ∧ (SQLiteDatabase.GetPhotoByUrl "https://www.example.com/image.jpg"
          (SQLiteDatabase.InsertResource "https://www.example.com/image.jpg"
            (some [1, 2, 3, 4]) emptyDb).2).1 = (some [1, 2, 3, 4], none)
      ∧ [(1 : Byte), 2, 3, 4].length > 0
      ∧ ∀ url2, (∀ row ∈ emptyDb.rows, row.url ≠ url2) →
          (SQLiteDatabase.GetPhotoByUrl url2 emptyDb).1 = (none, none)
            ∧ (SQLiteDatabase.ResourceExists url2 emptyDb).1 = (false, none) :=
  store_round_trip "https://www.example.com/image.jpg" [1, 2, 3, 4] emptyDb (by decide)
    (by decide) (by decide) (by decide)

/-! ## The request handler: claim C14 -/

/-- C14. For every request, `HandleSendData` returns a response with status
`success` and images equal to the blobs returned by `ProcessData` (same length,
same order, same bytes) exactly when `ProcessData` returns a nil error; when
`ProcessData` returns an error `e` it returns no response and an error that wraps
`e`, with the message `failed to process data: ` followed by that of `e`. -/
theorem HandleSendData_response (dh : DataHandler) (req : SendDataRequest) :
    (∀ result, dh.BusinessLogic.ProcessData req.Flag req.Links = (result, none) →
        dh.HandleSendData req = (some ⟨"success", result⟩, none))
      ∧ (∀ result e, dh.BusinessLogic.ProcessData req.Flag req.Links = (result, some e) →
          dh.HandleSendData req = (none, some ⟨"failed to process data: " ++ e, e⟩))
      ∧ ((dh.HandleSendData req).1.isSome = true
          ↔ (dh.BusinessLogic.ProcessData req.Flag req.Links).2 = none)
      ∧ ((dh.HandleSendData req).2 = none
          ↔ (dh.BusinessLogic.ProcessData req.Flag req.Links).2 = none) := by
  refine ⟨?_, ?_, ?_, ?_⟩
  · intro result h
    simp [DataHandler.HandleSendData, h]
  · intro result e h
    simp [DataHandler.HandleSendData, h]
  · simp only [DataHandler.HandleSendData]
    split <;> simp_all
  · simp only [DataHandler.HandleSendData]
    split <;> simp_all

/-! ## The video id: claims C15 and C16 -/

/-- Splitting never yields the empty list. -/
theorem splitChars_ne_nil (sep : Char) (l : List Char) : splitChars sep l ≠ [] := by
  cases l with
  | nil => simp [splitChars]
  | cons c cs =>
    simp only [splitChars]
    split
    · simp
    · split <;> simp

/-- The first piece of a split is what precedes the first separator. -/
theorem splitChars_head (sep : Char) (l : List Char) :
    (splitChars sep l).head? = some (l.takeWhile (fun c => c != sep)) := by
  induction l with
  | nil => simp [splitChars]
  | cons c cs ih =>
    simp only [splitChars]
    by_cases hc : c = sep
    · simp [hc]
    · simp only [hc, if_false]
      cases hs : splitChars sep cs with
      | nil => exact absurd hs (splitChars_ne_nil sep cs)
      | cons seg rest =>
        rw [hs] at ih
        simp at ih
        simp [hc, ih]

/-- The path segments of a path with a leading slash: the empty piece before the
slash, then the first path segment. -/
theorem split_rooted (path : String) (rest : List Char) (h : path.data = '/' :: rest) :
    ∃ tail, strings.Split path '/' = "" :: firstPathSegment path :: tail := by
  have hh := splitChars_head '/' rest
  cases hs : splitChars '/' rest with
  | nil => exact absurd hs (splitChars_ne_nil _ rest)
  | cons seg more =>
    rw [hs] at hh
    simp at hh
    refine ⟨more.map String.mk, ?_⟩
    simp [strings.Split, firstPathSegment, h, splitChars, hs, hh]

/-- The empty path has the single, empty, path segment. -/
theorem split_empty (path : String) (h : path.data = []) : strings.Split path '/' = [""] := by
  simp [strings.Split, h, splitChars]

/-- The result of `extractVideoID` on a long-form URL. -/
theorem extractVideoID_long (parse : String → Except Error URL) (videoURL : String) (u : URL)
    (hparse : parse videoURL = Except.ok u)
    (hhost : u.Host = "www.youtube.com" ∨ u.Host = "youtube.com") :
    youtubeclient.extractVideoID parse videoURL
      = if Values.Get u.Query "v" = "" then ("", some "could not find video ID in URL")
        else (Values.Get u.Query "v", none) := by
  simp only [youtubeclient.extractVideoID, hparse, hhost, if_true]
  by_cases hv : Values.Get u.Query "v" = ""
  · simp [hv]
  · simp [hv]

/-- The result of `extractVideoID` on a short-form URL whose path has a leading
slash. -/
theorem extractVideoID_short (parse : String → Except Error URL) (videoURL : String) (u : URL)
    (rest : List Char) (hparse : parse videoURL = Except.ok u) (hhost : u.Host = "youtu.be")
    (hpath : u.Path.data = '/' :: rest) :
    youtubeclient.extractVideoID parse videoURL
      = if firstPathSegment u.Path = "" then ("", some "could not extract video ID from URL")
        else (firstPathSegment u.Path, none) := by
  obtain ⟨tail, hsplit⟩ := split_rooted u.Path rest hpath
  have h1 : ¬ (u.Host = "www.youtube.com" ∨ u.Host = "youtube.com") := by
    rw [hhost]; decide
  simp only [youtubeclient.extractVideoID, hparse, h1, hhost, if_true, if_false, hsplit]
  by_cases hv : firstPathSegment u.Path = ""
  · simp [hv]
  · simp [hv]

/-- C15. `extractVideoID` derives the id as stated: for every URL that parses to
the host `www.youtube.com` or `youtube.com` with a non-empty `v` parameter (the
value that `Query().Get("v")` reads) it returns that value with a nil error; for
every URL that parses to the host `youtu.be` with a non-empty first path segment
after the host it returns that segment with a nil error. In particular, with the
answers that `url.Parse` gives on them, `https://www.youtube.com/watch?v=ABC123`
and `https://youtu.be/ABC123` both yield `ABC123`. -/
theorem extractVideoID_derives_id (parse : String → Except Error URL) (videoURL : String)
    (u : URL) (hparse : parse videoURL = Except.ok u) :
    ((u.Host = "www.youtube.com" ∨ u.Host = "youtube.com") → Values.Get u.Query "v" ≠ "" →
        youtubeclient.extractVideoID parse videoURL = (Values.Get u.Query "v", none))
      ∧ (u.Host = "youtu.be" → firstPathSegment u.Path ≠ "" →
          youtubeclient.extractVideoID parse videoURL = (firstPathSegment u.Path, none))
      ∧ (∀ parse2 : String → Except Error URL,
          parse2 "https://www.youtube.com/watch?v=ABC123"
              = Except.ok ⟨"https", "www.youtube.com", "/watch", [("v", "ABC123")]⟩ →
          youtubeclient.extractVideoID parse2 "https://www.youtube.com/watch?v=ABC123"
            = ("ABC123", none))
      ∧ (∀ parse2 : String → Except Error URL,
          parse2 "https://youtu.be/ABC123" = Except.ok ⟨"https", "youtu.be", "/ABC123", []⟩ →
          youtubeclient.extractVideoID parse2 "https://youtu.be/ABC123" = ("ABC123", none)) := by
  refine ⟨?_, ?_, ?_, ?_⟩
  · intro hhost hv
    rw [extractVideoID_long parse videoURL u hparse hhost]
    simp [hv]
  · intro hhost hseg
    cases hd : u.Path.data with
    | nil => simp [firstPathSegment, hd] at hseg
    | cons c rest =>
      by_cases hc : c = '/'
      · subst hc
        rw [extractVideoID_short parse videoURL u rest hparse hhost hd]
        simp [hseg]
      · exfalso
        apply hseg
        simp only [firstPathSegment, hd]
        split
        · next r heq =>
          simp at heq
          exact absurd heq.1 hc
        · rfl
  · intro parse2 h
    rw [extractVideoID_long parse2 _ _ h (Or.inl rfl)]
    decide
  · intro parse2 h
    rw [extractVideoID_short parse2 _ _ "ABC123".data h rfl rfl]
    decide

/-- The two URLs of the specification, parsed by the table `exampleParse`. -/
theorem extractVideoID_derives_id_witness :
    youtubeclient.extractVideoID exampleParse "https://www.youtube.com/watch?v=ABC123"
        = ("ABC123", none)
      ∧ youtubeclient.extractVideoID exampleParse "https://youtu.be/ABC123"
        = (firstPathSegment "/ABC123", none) :=
  ⟨(extractVideoID_derives_id exampleParse "https://www.youtube.com/watch?v=ABC123"
      ⟨"https", "www.youtube.com", "/watch", [("v", "ABC123")]⟩ rfl).1
      (by decide) (by decide),
    (extractVideoID_derives_id exampleParse "https://youtu.be/ABC123"
      ⟨"https", "youtu.be", "/ABC123", []⟩ rfl).2.1 (by decide) (by decide)⟩

/-- The result of `extractVideoID` on a short-form URL with an empty path. -/
theorem extractVideoID_short_empty (parse : String → Except Error URL) (videoURL : String)
    (u : URL) (hparse : parse videoURL = Except.ok u) (hhost : u.Host = "youtu.be")
    (hpath : u.Path = "") :
    youtubeclient.extractVideoID parse videoURL
      = ("", some "could not find video ID in short URL") := by
  have h1 : ¬ (u.Host = "www.youtube.com" ∨ u.Host = "youtube.com") := by
    rw [hhost]; decide
  have hsplit := split_empty u.Path (by rw [hpath])
  simp [youtubeclient.extractVideoID, hparse, h1, hhost, hsplit]

/-- The result of `extractVideoID` on a URL of another host. -/
theorem extractVideoID_other (parse : String → Except Error URL) (videoURL : String)
    (u : URL) (hparse : parse videoURL = Except.ok u)
    (h1 : ¬ (u.Host = "www.youtube.com" ∨ u.Host = "youtube.com")) (h2 : u.Host ≠ "youtu.be") :
    youtubeclient.extractVideoID parse videoURL = ("", some "unsupported URL format") := by
  simp [youtubeclient.extractVideoID, hparse, h1, h2]

/-- C16. `extractVideoID` fails (returns an error, and the empty id) if and only
if the URL does not parse, or its host is none of `www.youtube.com`,
`youtube.com`, `youtu.be`, or it is a long-form URL whose `v` parameter (the value
that `Query().Get("v")` reads) is empty or missing, or it is a short-form URL
whose first path segment is missing or empty; every id returned on success is
non-empty; `GenerateThumbnailURL` fails with the same error; and
`https://example.com/x`, which parses to the host `example.com`, fails. The path
of a parsed URL with a host is empty or starts with a slash, as `url.Parse`
guarantees. -/
theorem extractVideoID_fails_iff (parse : String → Except Error URL) (videoURL : String)
    (rooted : ∀ u, parse videoURL = Except.ok u → u.Host = "youtu.be" →
      u.Path = "" ∨ u.Path.data.head? = some '/') :
    ((youtubeclient.extractVideoID parse videoURL).2 ≠ none ↔
        (∃ e, parse videoURL = Except.error e)
          ∨ ∃ u, parse videoURL = Except.ok u
              ∧ ((u.Host ≠ "www.youtube.com" ∧ u.Host ≠ "youtube.com" ∧ u.Host ≠ "youtu.be")
                ∨ ((u.Host = "www.youtube.com" ∨ u.Host = "youtube.com")
                    ∧ Values.Get u.Query "v" = "")
                ∨ (u.Host = "youtu.be" ∧ firstPathSegment u.Path = "")))
      ∧ ((youtubeclient.extractVideoID parse videoURL).2 ≠ none →
          (youtubeclient.extractVideoID parse videoURL).1 = "")
      ∧ ((youtubeclient.extractVideoID parse videoURL).2 = none →
          (youtubeclient.extractVideoID parse videoURL).1 ≠ "")
      ∧ (youtubeclient.GenerateThumbnailURL parse videoURL).2
          = (youtubeclient.extractVideoID parse videoURL).2
      ∧ ∀ (parse2 : String → Except Error URL) (u : URL),
          parse2 "https://example.com/x" = Except.ok u → u.Host = "example.com" →
          youtubeclient.extractVideoID parse2 "https://example.com/x"
            = ("", some "unsupported URL format") := by
  have hgen : (youtubeclient.GenerateThumbnailURL parse videoURL).2
      = (youtubeclient.extractVideoID parse videoURL).2 := by
    simp only [youtubeclient.GenerateThumbnailURL]
    split
    · next id err heq => simp [heq]
    · next id heq => simp [heq]
  have hex : ∀ (parse2 : String → Except Error URL) (u : URL),
      parse2 "https://example.com/x" = Except.ok u → u.Host = "example.com" →
      youtubeclient.extractVideoID parse2 "https://example.com/x"
        = ("", some "unsupported URL format") := by
    intro parse2 u hp hh
    exact extractVideoID_other parse2 _ u hp (by rw [hh]; decide) (by rw [hh]; decide)
  cases hparse : parse videoURL with
  | error e =>
    have hres : youtubeclient.extractVideoID parse videoURL
        = ("", some ("failed to parse URL: " ++ e)) := by
      simp [youtubeclient.extractVideoID, hparse]
    refine ⟨?_, ?_, ?_, hgen, hex⟩ <;> simp [hres]
  | ok u =>
    by_cases h1 : u.Host = "www.youtube.com" ∨ u.Host = "youtube.com"
    · have hres := extractVideoID_long parse videoURL u hparse h1
      have h2 : u.Host ≠ "youtu.be" := by
        rcases h1 with h | h <;> (rw [h]; decide)
      by_cases hv : Values.Get u.Query "v" = ""
      · rw [if_pos hv] at hres
        refine ⟨?_, ?_, ?_, hgen, hex⟩
        · simp only [hres]
          simp
          exact Or.inr (Or.inl ⟨h1, hv⟩)
        · simp [hres]
        · simp [hres]
      · rw [if_neg hv] at hres
        refine ⟨?_, ?_, ?_, hgen, hex⟩
        · simp only [hres]
          simp
          refine ⟨?_, ?_, ?_⟩
          · intro ha hb
            rcases h1 with h | h
            · exact absurd h ha
            · exact absurd h hb
          · intro _; exact hv
          · intro h; exact absurd h h2
        · simp [hres]
        · simp [hres, hv]
    · by_cases h2 : u.Host = "youtu.be"
      · rcases rooted u hparse h2 with hp | hp
        · have hres := extractVideoID_short_empty parse videoURL u hparse h2 hp
          have hseg : firstPathSegment u.Path = "" := by
            rw [hp]; rfl
          refine ⟨?_, ?_, ?_, hgen, hex⟩
          · simp only [hres]
            simp
            exact Or.inr (Or.inr ⟨h2, hseg⟩)
          · simp [hres]
          · simp [hres]
        · cases hd : u.Path.data with
          | nil => simp [hd] at hp
          | cons c rest =>
            simp [hd] at hp
            subst hp
            have hres := extractVideoID_short parse videoURL u rest hparse h2 hd
            by_cases hseg : firstPathSegment u.Path = ""
            · rw [if_pos hseg] at hres
              refine ⟨?_, ?_, ?_, hgen, hex⟩
              · simp only [hres]
                simp
                exact Or.inr (Or.inr ⟨h2, hseg⟩)
              · simp [hres]
              · simp [hres]
            · rw [if_neg hseg] at hres
              refine ⟨?_, ?_, ?_, hgen, hex⟩
              · simp only [hres]
                simp
                refine ⟨?_, ?_, ?_⟩
                · intro _ _; exact h2
                · intro h; exact absurd h h1
                · intro _; exact hseg
              · simp [hres]
              · simp [hres, hseg]
      · have hres := extractVideoID_other parse videoURL u hparse h1 h2
        refine ⟨?_, ?_, ?_, hgen, hex⟩
        · simp only [hres]
          simp
          refine Or.inl ⟨?_, ?_, h2⟩
          · intro h; exact h1 (Or.inl h)
          · intro h; exact h1 (Or.inr h)
        · simp [hres]
        · simp [hres]

/-- Two URLs parsed by the table `exampleParse`: the short-form URL
`https://youtu.be/`, whose first path segment is empty, fails; and
`https://example.com/x` fails as an unsupported host. -/
theorem extractVideoID_fails_iff_witness :
    (youtubeclient.extractVideoID exampleParse "https://youtu.be/").2 ≠ none
      ∧ youtubeclient.extractVideoID exampleParse "https://example.com/x"
        = ("", some "unsupported URL format") :=
  ⟨(extractVideoID_fails_iff exampleParse "https://youtu.be/"
      (fun u hp _ => by
        have h2 : exampleParse "https://youtu.be/" = Except.ok ⟨"https", "youtu.be", "/", []⟩ :=
          rfl
        rw [h2] at hp
        rw [← Except.ok.inj hp]
        exact Or.inr (by decide))).1.mpr
      (Or.inr ⟨⟨"https", "youtu.be", "/", []⟩, rfl, Or.inr (Or.inr ⟨rfl, by decide⟩)⟩),
    (extractVideoID_fails_iff exampleParse "https://youtu.be/"
      (fun u hp _ => by
        have h2 : exampleParse "https://youtu.be/" = Except.ok ⟨"https", "youtu.be", "/", []⟩ :=
          rfl
        rw [h2] at hp
        rw [← Except.ok.inj hp]
        exact Or.inr (by decide))).2.2.2.2 exampleParse ⟨"https", "example.com", "/x", []⟩
      rfl rfl⟩

/-! ## The command line: claims C17 and C18 -/

/-- The loop of `validateLinks` answers the error for the first invalid link. -/
theorem validateLinks_find (parse : String → Except Error URL) (links : List String) :
    ParserConsole.validateLinks parse links
      = (links.find? (invalidLink parse)).map (fun link => "invalid link: " ++ link) := by
  induction links with
  | nil => rfl
  | cons link rest ih =>
    simp only [ParserConsole.validateLinks, List.find?_cons, invalidLink]
    cases hp : parse link with
    | error e => simp
    | ok u =>
      by_cases hbad : u.Scheme = "" ∨ u.Host = ""
      · have : (u.Scheme == "" || u.Host == "") = true := by
          rcases hbad with h | h <;> simp [h]
        simp [hbad, this]
      · have : (u.Scheme == "" || u.Host == "") = false := by
          simp only [not_or] at hbad
          simp [hbad.1, hbad.2]
        simp only [hbad, if_false, this]
        exact ih

/-- Splitting a string never yields the empty list. -/
theorem split_ne_nil (s : String) (sep : Char) : strings.Split s sep ≠ [] := by
  simp [strings.Split, splitChars_ne_nil]

/-- C17. `validateLinks` returns an error if and only if some link of the list
fails to parse as a URL or has an empty scheme or an empty host; the error is
`invalid link: ` followed by the first such link in list order; a list of valid
absolute URLs, the empty list included, is accepted; and on the list of
`TestValidateLinks_Invalid`, parsed by the table `exampleParse`, the error names
`invalid-url`. -/
theorem validateLinks_first_invalid (parse : String → Except Error URL)
    (links : List String) :
    (ParserConsole.validateLinks parse links ≠ none ↔
        ∃ link ∈ links, (∃ e, parse link = Except.error e)
          ∨ ∃ u, parse link = Except.ok u ∧ (u.Scheme = "" ∨ u.Host = ""))
      ∧ ParserConsole.validateLinks parse links
          = (links.find? (invalidLink parse)).map (fun link => "invalid link: " ++ link)
      ∧ (∀ link, invalidLink parse link = true ↔
          (∃ e, parse link = Except.error e)
            ∨ ∃ u, parse link = Except.ok u ∧ (u.Scheme = "" ∨ u.Host = ""))
      ∧ ((∀ link ∈ links, invalidLink parse link = false) →
          ParserConsole.validateLinks parse links = none)
      ∧ ParserConsole.validateLinks parse [] = none
      ∧ ParserConsole.validateLinks exampleParse ["invalid-url", "http://"]
          = some "invalid link: invalid-url" := by
  have hinv : ∀ link, invalidLink parse link = true ↔
      (∃ e, parse link = Except.error e)
        ∨ ∃ u, parse link = Except.ok u ∧ (u.Scheme = "" ∨ u.Host = "") := by
    intro link
    simp only [invalidLink]
    cases hp : parse link with
    | error e => simp
    | ok u => simp
  refine ⟨?_, validateLinks_find parse links, hinv, ?_, rfl, by decide⟩
  · rw [validateLinks_find]
    constructor
    · intro h
      cases hf : links.find? (invalidLink parse) with
      | none => simp [hf] at h
      | some link =>
        exact ⟨link, List.mem_of_find?_eq_some hf, (hinv link).mp (List.find?_some hf)⟩
    · rintro ⟨link, hmem, hbad⟩
      cases hf : links.find? (invalidLink parse) with
      | none =>
        rw [List.find?_eq_none] at hf
        exact absurd ((hinv link).mpr hbad) (hf link hmem)
      | some l => simp
  · intro h
    rw [validateLinks_find]
    have : links.find? (invalidLink parse) = none := by
      rw [List.find?_eq_none]
      intro link hmem
      simp [h link hmem]
    simp [this]

/-- The two results of `ParseFlags`: the parser with its fields set, and the
error as a function of the link list. -/
theorem ParseFlags_eq (parse : String → Except Error URL) (asyncFlag : Bool)
    (linksFlag : String) (args : List String) :
    ParserConsole.ParseFlags parse asyncFlag linksFlag args
      = (⟨asyncFlag, if linksFlag ≠ "" then strings.Split linksFlag ',' else args⟩,
          match ParserConsole.validateLinks parse
            (if linksFlag ≠ "" then strings.Split linksFlag ',' else args) with
          | some err => some ("failed to validate links: " ++ err)
          | none =>
            if (if linksFlag ≠ "" then strings.Split linksFlag ',' else args) = [] then
              some "no video links provided"
            else none) := by
  simp only [ParserConsole.ParseFlags]
  generalize (if linksFlag ≠ "" then strings.Split linksFlag ',' else args) = links
  cases hv : ParserConsole.validateLinks parse links with
  | some e => rfl
  | none =>
    by_cases hl : links = []
    · simp [hl]
    · simp [hl]

/-- C18. `ParseFlags` returns the error `no video links provided` whenever the
parsed link list is empty, which is exactly when there is no `--links` value and
no positional argument; and it returns nil exactly when the list is non-empty and
`validateLinks` accepts it, so that no link of the list is invalid; on the input
of `TestParseFlags_NoLinks` (only `--async`) the error is
`no video links provided`. -/
theorem ParseFlags_no_links (parse : String → Except Error URL) (asyncFlag : Bool)
    (linksFlag : String) (args : List String) :
    ((ParserConsole.ParseFlags parse asyncFlag linksFlag args).1.links = [] →
        (ParserConsole.ParseFlags parse asyncFlag linksFlag args).2
          = some "no video links provided")
      ∧ ((ParserConsole.ParseFlags parse asyncFlag linksFlag args).1.links = [] ↔
          linksFlag = "" ∧ args = [])
      ∧ ((ParserConsole.ParseFlags parse asyncFlag linksFlag args).2 = none ↔
          (ParserConsole.ParseFlags parse asyncFlag linksFlag args).1.links ≠ []
            ∧ ParserConsole.validateLinks parse
                (ParserConsole.ParseFlags parse asyncFlag linksFlag args).1.links = none)
      ∧ ((ParserConsole.ParseFlags parse asyncFlag linksFlag args).2 = none →
          ∀ link ∈ (ParserConsole.ParseFlags parse asyncFlag linksFlag args).1.links,
            invalidLink parse link = false)
      ∧ (ParserConsole.ParseFlags parse asyncFlag linksFlag args).1.isAsync = asyncFlag
      ∧ (ParserConsole.ParseFlags exampleParse true "" []).2 = some "no video links provided" := by
  have hempty : (if linksFlag ≠ "" then strings.Split linksFlag ',' else args) = [] ↔
      linksFlag = "" ∧ args = [] := by
    by_cases hl : linksFlag = ""
    · simp [hl]
    · simp [hl, split_ne_nil]
  rw [ParseFlags_eq]
  simp only
  rw [← hempty]
  generalize (if linksFlag ≠ "" then strings.Split linksFlag ',' else args) = links
  have hnone : ParserConsole.validateLinks parse links = none →
      ∀ link ∈ links, invalidLink parse link = false := by
    intro hl link hmem
    rw [validateLinks_find] at hl
    cases hf : links.find? (invalidLink parse) with
    | some x => simp [hf] at hl
    | none =>
      rw [List.find?_eq_none] at hf
      simpa using hf link hmem
  refine ⟨?_, Iff.rfl, ?_, ?_, trivial, by decide⟩
  · intro h
    subst h
    simp [ParserConsole.validateLinks]
  · cases hv : ParserConsole.validateLinks parse links with
    | some e => simp
    | none =>
      by_cases hl : links = []
      · simp [hl]
      · simp [hl]
  · cases hv : ParserConsole.validateLinks parse links with
    | some e => simp
    | none =>
      by_cases hl : links = []
      · simp [hl]
      · simp only [hl, if_false]
        intro _
        exact hnone hv

/-! ## The client loop and the two id extractors: claims C21 and C22 -/

/-- Whatever `processAsync` has returned has at most `len(links)` entries. -/
theorem returned_length_le {σ : Type} (links : List String) (s : AsyncState σ)
    (h : Inv links s) (r : List Bytes × Option Error) (hr : s.returned = some r) :
    r.1.length ≤ links.length := by
  obtain ⟨out, err⟩ := r
  cases err with
  | some e =>
    rw [h.ret_err out e hr]
    simp
  | none =>
    obtain ⟨_, _, hout⟩ := h.ret_ok out hr
    have h1 := congrArg List.length h.ch_hist
    have h2 := List.length_filterMap_le Report.onCh s.reports
    have h3 := reports_le_cap links s h
    have h4 := h.cap_eq
    simp only [List.length_append] at h1
    simp only [hout]
    omega

/-- The loop of `SendData` reads only indices in range exactly when the images
from index `i` on fit into `links`. -/
theorem saveImages_in_range (parse : String → Except Error URL) (links : List String)
    (images : List Bytes) :
    ∀ i, i + images.length ≤ links.length →
      ∃ saved, utils.saveImages parse links i images = some saved
        ∧ saved.length = images.length := by
  induction images with
  | nil => intro i _; exact ⟨[], rfl, rfl⟩
  | cons img rest ih =>
    intro i hi
    simp only [List.length_cons] at hi
    have hlt : i < links.length := by omega
    obtain ⟨saved, hs, hl⟩ := ih (i + 1) (by omega)
    refine ⟨(utils.extractVideoID parse links[i] ++ ".jpeg", img) :: saved, ?_, by simp [hl]⟩
    simp [utils.saveImages, List.getElem?_eq_getElem hlt, hs]

/-- C21. For every request `(flag, links)` and in both modes: whatever
`ProcessData` returns, the response that `HandleSendData` builds from it has
`len(images) ≤ len(links)`; therefore the loop of the CLI's `SendData`, which
reads `links[i]` for every index `i` of the returned images, stays in range (it
writes one file per image), and `SendData` on a client connected to that handler
does not panic. -/
theorem SendData_index_in_range {σ : Type} (bl : BusinessLogic σ) (flag : Bool)
    (links : List String) (sched : List Action) (w : σ) (r : List Bytes × Option Error)
    (dh : DataHandler) (parse : String → Except Error URL) (mkdirAll : Option Error)
    (hret : ProcessData bl flag links sched w = some r)
    (hdh : dh.BusinessLogic.ProcessData flag links = r) :
    r.1.length ≤ links.length
      ∧ (∀ resp, (dh.HandleSendData ⟨flag, links⟩).1 = some resp →
          resp.Images.length ≤ links.length
            ∧ ∃ saved, utils.saveImages parse links 0 resp.Images = some saved
                ∧ saved.length = resp.Images.length)
      ∧ (GRPCTransportSender.SendData parse (serverClient dh) mkdirAll flag links).isSome
          = true := by
  have hlen : r.1.length ≤ links.length := by
    cases flag with
    | false =>
      simp only [ProcessData, Bool.false_eq_true, if_false, Option.some.injEq] at hret
      rw [← hret]
      have hp : (process bl links w).photos = nonNilSuccessBlobs (resolutions bl links w) := by
        simpa [process] using processLoop_photos bl links [] w []
      simp only [hp, nonNilSuccessBlobs, List.length_map]
      rw [← resolutions_length bl links w]
      exact List.length_filter_le _ _
    | true =>
      simp only [ProcessData, if_true, processAsync] at hret
      cases hrun : run bl sched (AsyncState.init links w) with
      | none => simp [hrun] at hret
      | some s =>
        simp [hrun] at hret
        exact returned_length_le links s (inv_run bl links sched _ s (inv_init links w) hrun)
          r hret
  obtain ⟨out, err⟩ := r
  have hresp : ∀ resp, (dh.HandleSendData ⟨flag, links⟩).1 = some resp →
      resp.Images.length ≤ links.length
        ∧ ∃ saved, utils.saveImages parse links 0 resp.Images = some saved
            ∧ saved.length = resp.Images.length := by
    intro resp hresp
    have himg : resp.Images = out := by
      cases err with
      | some e => simp [DataHandler.HandleSendData, hdh] at hresp
      | none =>
        simp [DataHandler.HandleSendData, hdh] at hresp
        rw [← hresp]
    rw [himg]
    exact ⟨hlen, saveImages_in_range parse links out 0 (by simpa using hlen)⟩
  refine ⟨hlen, hresp, ?_⟩
  cases err with
  | some e =>
    simp [GRPCTransportSender.SendData, serverClient, DataHandler.HandleSendData, hdh]
  | none =>
    obtain ⟨_, saved, hs, _⟩ := hresp ⟨"success", out⟩
      (by simp [DataHandler.HandleSendData, hdh])
    cases mkdirAll with
    | some e =>
      simp [GRPCTransportSender.SendData, serverClient, DataHandler.HandleSendData, hdh]
    | none =>
      simp only at hs
      simp [GRPCTransportSender.SendData, serverClient, DataHandler.HandleSendData, hdh, hs]

/-- The batch `[k1, k2]` in concurrent mode under `okSchedule`, handled and sent
back to the client: two images for two links, and the loop names two files. -/
theorem SendData_index_in_range_witness :
    [some [7, 8], some [(1 : Byte), 2, 3]].length ≤ ["k1", "k2"].length
      ∧ (GRPCTransportSender.SendData exampleParse
          (serverClient ⟨⟨fun _ _ => ([some [7, 8], some [1, 2, 3]], none)⟩⟩) none true
          ["k1", "k2"]).isSome = true :=
  ⟨(SendData_index_in_range (sqliteLogic mixedFetch) true ["k1", "k2"] okSchedule
      (oneRowDb, 0) ([some [7, 8], some [1, 2, 3]], none)
      ⟨⟨fun _ _ => ([some [7, 8], some [1, 2, 3]], none)⟩⟩ exampleParse none
      (by decide) rfl).1,
    (SendData_index_in_range (sqliteLogic mixedFetch) true ["k1", "k2"] okSchedule
      (oneRowDb, 0) ([some [7, 8], some [1, 2, 3]], none)
      ⟨⟨fun _ _ => ([some [7, 8], some [1, 2, 3]], none)⟩⟩ exampleParse none
      (by decide) rfl).2.2⟩

/-- C22. The CLI's `extractVideoID` and the server's `extractVideoID` agree on
every URL string, for the same `url.Parse`: the CLI version returns exactly the
id component of the server version; so whenever the server version returns an id
without error the CLI version returns the same id, and whenever the server
version returns an error the CLI version returns the empty string. -/
theorem extractVideoID_agree (parse : String → Except Error URL) (videoURL : String) :
    utils.extractVideoID parse videoURL = (youtubeclient.extractVideoID parse videoURL).1
      ∧ (∀ id, youtubeclient.extractVideoID parse videoURL = (id, none) →
          utils.extractVideoID parse videoURL = id)
      ∧ ((youtubeclient.extractVideoID parse videoURL).2 ≠ none →
          utils.extractVideoID parse videoURL = "") := by
  have key : utils.extractVideoID parse videoURL
        = (youtubeclient.extractVideoID parse videoURL).1
      ∧ ((youtubeclient.extractVideoID parse videoURL).2 ≠ none →
          (youtubeclient.extractVideoID parse videoURL).1 = "") := by
    simp only [utils.extractVideoID, youtubeclient.extractVideoID]
    cases hp : parse videoURL with
    | error e => simp
    | ok u =>
      by_cases h1 : u.Host = "www.youtube.com" ∨ u.Host = "youtube.com"
      · by_cases hv : Values.Get u.Query "v" = ""
        · simp [h1, hv]
        · simp [h1, hv]
      · by_cases h2 : u.Host = "youtu.be"
        · by_cases hl : (strings.Split u.Path '/').length > 1
          · simp only [h1, h2, hl, if_true, if_false]
            generalize (strings.Split u.Path '/').getD 1 "" = seg
            by_cases hs : seg = ""
            · simp [hs]
            · simp [hs]
          · simp [h1, h2, hl]
        · simp [h1, h2]
  refine ⟨key.1, ?_, ?_⟩
  · intro id h
    rw [key.1, h]
  · intro h
    rw [key.1]
    exact key.2 h

end Thumbnail
